import Mathlib

/-!
Verification development for the konflux-ui pipeline-run graph construction and
matrix-task expansion engine.

The TypeScript sources are shallowly embedded: JavaScript strings become `String`,
`undefined`/`null`-able values become `Option`, JS objects become structures,
associative lookups on JS objects and `Map`s become ordered association lists, and
property accesses that can throw a `TypeError` in JavaScript are modelled in the
`Except String` monad.  External collaborators that are not part of the embedded
sources (the run-state classifiers from `pipeline-utils`, `JSON.parse`-based result
parsing, duration formatting, and pixel-width measurement) are supplied as fields of
an `Ext` record, so every theorem quantifies over them.
-/

namespace KonfluxUI

/-- JavaScript truthiness of a possibly-undefined string: `undefined`, `null` and
the empty string are falsy, every other string is truthy. -/
def strTruthy : Option String → Bool
  | none => false
  | some s => !s.isEmpty

/-- Ordered association-list lookup, modelling both JS object property access and
`Map.prototype.get`. -/
def assocLookup {β : Type} : List (String × β) → String → Option β
  | [], _ => none
  | (k, v) :: rest, key => if k = key then some v else assocLookup rest key

/-- JavaScript whitespace set recognised by `String.prototype.trim`
(ECMA-262 WhiteSpace and LineTerminator code points). -/
def isJsWhitespace (c : Char) : Bool :=
  c = ' ' || c = '\t' || c = '\n' || c = '\r' || c = '\u000b' || c = '\u000c' ||
  c = '\u00a0' || c = '\u1680' || c = '\u2000' || c = '\u2001' || c = '\u2002' ||
  c = '\u2003' || c = '\u2004' || c = '\u2005' || c = '\u2006' || c = '\u2007' ||
  c = '\u2008' || c = '\u2009' || c = '\u200a' || c = '\u2028' || c = '\u2029' ||
  c = '\u202f' || c = '\u205f' || c = '\u3000' || c = '\ufeff'

/-- `String.prototype.trim` on the character list of a string. -/
def jsTrim (l : List Char) : List Char :=
  ((l.dropWhile isJsWhitespace).reverse.dropWhile isJsWhitespace).reverse

/-- One step of the state machine for the global regex replace
`replace(/<[^>]*>/g, '')`: while inside a potential tag (second argument
`some buf`, where `buf` holds the consumed characters in reverse), a `>`
closes and deletes the tag; if the input ends first, the buffered characters
were not part of any match and are emitted verbatim.  This is exactly the JS
semantics: a match starts at `<` and extends to the first following `>`;
a `<` with no later `>` starts no match. -/
def removeTagsAux : List Char → Option (List Char) → List Char
  | [], none => []
  | [], some buf => buf.reverse
  | c :: cs, none =>
    if c = '<' then removeTagsAux cs (some [c]) else c :: removeTagsAux cs none
  | c :: cs, some buf =>
    if c = '>' then removeTagsAux cs none else removeTagsAux cs (some (c :: buf))

/-- Global regex replace `replace(/<[^>]*>/g, '')` from `sanitizeDisplayName`. -/
def removeTags (l : List Char) : List Char := removeTagsAux l none

/-- Global regex replace `replace(/[<>&]/g, '')` from `sanitizeDisplayName`. -/
def removeDangerous (l : List Char) : List Char :=
  l.filter (fun c => !(c = '<' || c = '>' || c = '&'))

/-- The tag-strip / character-strip / trim pipeline of `sanitizeDisplayName`,
before the length truncation. -/
def sanitizeCore (s : String) : List Char :=
  jsTrim (removeDangerous (removeTags s.data))

/-- `sanitizeDisplayName` from `pipelinerun-graph-utils.ts`: strips HTML-tag-like
substrings, strips literal `<`, `>`, `&`, trims, and truncates to 100 characters.
The `if (!displayName) return ''` guard makes the empty string map to itself. -/
def sanitizeDisplayName (displayName : String) : String :=
  if displayName.isEmpty then String.mk [] else
    let sanitized := sanitizeCore displayName
    if sanitized.length > 100 then String.mk (sanitized.take 100) else String.mk sanitized

/-- Wrapper recording that a JS caller may pass `undefined`, which the
`if (!displayName)` guard maps to the empty string. -/
def sanitizeDisplayNameOpt : Option String → String
  | none => String.mk []
  | some s => sanitizeDisplayName s

/-- Character class `[a-zA-Z0-9]` used by `sanitizeNameSuffix`. -/
def isSuffixAlnum (c : Char) : Bool :=
  ('a' ≤ c && c ≤ 'z') || ('A' ≤ c && c ≤ 'Z') || ('0' ≤ c && c ≤ '9')

/-- Global regex replace of the pattern `-+` with `-`: collapses every run of
dashes to a single dash. -/
def collapseDashes : List Char → List Char
  | [] => []
  | [c] => [c]
  | c :: c' :: cs =>
    if c = '-' && c' = '-' then collapseDashes (c' :: cs)
    else c :: collapseDashes (c' :: cs)

/-- Global regex replace of the anchored pattern "leading dash or trailing dash"
with the empty string: removes one leading and one trailing dash. -/
def dropLeadDash : List Char → List Char
  | '-' :: cs => cs
  | l => l

/-- `sanitizeNameSuffix` from `pipelinerun-graph-utils.ts`: replaces every
character outside `[a-zA-Z0-9]` with `-`, collapses consecutive dashes, and
strips a leading and trailing dash. -/
def sanitizeNameSuffix (input : String) : String :=
  if input.isEmpty then String.mk [] else
    String.mk
      ((dropLeadDash
        ((dropLeadDash
          (collapseDashes (input.data.map (fun c => if isSuffixAlnum c then c else '-')))).reverse)).reverse)

/-- Case-insensitive match of the literal pattern characters (given lowercase)
against the start of the input, modelling a regex with the `i` flag. -/
def matchesPatCI : List Char → List Char → Bool
  | [], _ => true
  | _ :: _, [] => false
  | p :: ps, c :: cs => (c.toLower = p) && matchesPatCI ps cs

/-- The 11 pattern characters of the global case-insensitive replace of
`javascript:` with the empty string in `sanitizeMatrixValue`. -/
def jsProtoPat : List Char := ['j','a','v','a','s','c','r','i','p','t',':']

/-- Global case-insensitive replace of `javascript:` with the empty string:
on a match the scanner continues after the removed occurrence (JS global
replace does not rescan the spliced text). -/
def stripJsProto : List Char → List Char
  | [] => []
  | c :: cs =>
    if matchesPatCI jsProtoPat (c :: cs) then stripJsProto ((c :: cs).drop 11)
    else c :: stripJsProto cs
termination_by l => l.length
decreasing_by
  · simp only [List.length_drop, List.length_cons]; omega
  · simp

/-! Data model.  All structures mirror the TypeScript shapes used by the
embedded functions; optional TS fields are `Option`s with a `none` default so
that concrete test fixtures stay readable. -/

/-- Run-state classification enum (`runStatus` from `pipeline-utils`, an
external collaborator; only the constructors referenced by the embedded
sources are listed). -/
inductive RunStatus
  | succeeded | failed | running | inProgress | pending
  | cancelled | testFailed | testWarning | skipped | idle
deriving DecidableEq, Repr

/-- Tekton parameter value: a plain string or an array of strings
(`Array.isArray` distinguishes the two in the sources). -/
inductive ParamValue
  | str (s : String)
  | arr (l : List String)
deriving DecidableEq, Repr

/-- `Array.isArray(param.value) ? param.value : [param.value]`. -/
def paramValueToList : ParamValue → List String
  | .str s => [s]
  | .arr l => l

/-- JavaScript string coercion of a parameter value (an array stringifies as
its elements joined with a comma). -/
def paramValueStr : ParamValue → String
  | .str s => s
  | .arr l => String.intercalate "," l

structure Param where
  name : String
  value : ParamValue
deriving DecidableEq, Repr

structure WhenExpr where
  input : String
  values : List String
deriving DecidableEq, Repr

structure MatrixDecl where
  params : Option (List Param) := none
deriving DecidableEq, Repr

structure NamedStep where
  name : String
deriving DecidableEq, Repr

structure TaskSpecDecl where
  steps : Option (List NamedStep) := none
deriving DecidableEq, Repr

/-- Static pipeline task definition (`PipelineTask`). -/
structure PipelineTask where
  name : String
  runAfter : Option (List String) := none
  params : Option (List Param) := none
  whenExprs : Option (List WhenExpr) := none
  matrix : Option MatrixDecl := none
  steps : Option (List NamedStep) := none
  taskSpec : Option TaskSpecDecl := none
deriving DecidableEq, Repr

structure PipelineSpec where
  tasks : Option (List PipelineTask) := none
  finallyTasks : Option (List PipelineTask) := none
deriving DecidableEq, Repr

structure Pipeline where
  spec : PipelineSpec := {}
deriving DecidableEq, Repr

structure Condition where
  condType : String := ""
  status : String := ""
  reason : String := ""
deriving DecidableEq, Repr

structure Terminated where
  reason : String := ""
  startedAt : Option String := none
  finishedAt : Option String := none
deriving DecidableEq, Repr

structure RunningState where
  startedAt : Option String := none
deriving DecidableEq, Repr

/-- A step entry of a task-run status (`PLRTaskRunStep`); `waiting` records the
presence of the `waiting` object. -/
structure PLRTaskRunStep where
  name : String
  terminated : Option Terminated := none
  running : Option RunningState := none
  waiting : Bool := false
deriving DecidableEq, Repr

structure TektonResult where
  name : String
  value : String
deriving DecidableEq, Repr

structure TaskRunStatusK where
  conditions : Option (List Condition) := none
  startTime : Option String := none
  completionTime : Option String := none
  steps : Option (List PLRTaskRunStep) := none
  results : Option (List TektonResult) := none
  taskResults : Option (List TektonResult) := none
deriving DecidableEq, Repr

structure TRMetadata where
  name : Option String := none
  labels : Option (List (String × String)) := none
  annotations : Option (List (String × String)) := none
deriving DecidableEq, Repr

structure TaskRunSpecK where
  params : Option (List Param) := none
deriving DecidableEq, Repr

/-- Dynamic task-run record (`TaskRunKind`); `pipelineTaskName` is the direct
task-name field carried by records sourced from child references. -/
structure TaskRun where
  metadata : Option TRMetadata := none
  spec : Option TaskRunSpecK := none
  status : Option TaskRunStatusK := none
  pipelineTaskName : Option String := none
deriving DecidableEq, Repr

structure ChildReference where
  name : String
  displayName : Option String := none
deriving DecidableEq, Repr

structure SkippedTask where
  name : String
deriving DecidableEq, Repr

structure PLRStatus where
  conditions : Option (List Condition) := none
  childReferences : Option (List ChildReference) := none
  skippedTasks : Option (List SkippedTask) := none
  pipelineSpec : Option PipelineSpec := none
deriving DecidableEq, Repr

structure PLRMetadata where
  name : Option String := none
  namespaceName : Option String := none
deriving DecidableEq, Repr

/-- Pipeline-run object (`PipelineRunKind`). -/
structure PipelineRun where
  metadata : PLRMetadata := {}
  status : Option PLRStatus := none
deriving DecidableEq, Repr

/-- `TektonResourceLabel.pipelineTask`. -/
def pipelineTaskLabel : String := "tekton.dev/pipelineTask"

/-- The pipeline-task label value of a run record:
`tr.metadata?.labels?.[TektonResourceLabel.pipelineTask]`. -/
def taskRunLabelName (tr : TaskRun) : Option String :=
  (tr.metadata.bind (fun md => md.labels)).bind (fun l => assocLookup l pipelineTaskLabel)

/-! Embedding of `src/utils/matrix-pipeline-utils.ts`. -/

structure MatrixParameterInfo where
  parameter : String
  value : String
  displayName : String
  isKnownParameter : Bool
deriving DecidableEq, Repr

structure MatrixTaskInfo where
  taskName : String
  matrixParameters : List MatrixParameterInfo
  isMatrix : Bool
  instanceCount : Nat
deriving DecidableEq, Repr

/-- Modelled from the spec: the constant `TaskRunLabel.TARGET_PLATFORM` comes
from `consts/pipelinerun`, which is not among the sources; the spec's Matrix
Detector names a fixed table of well-known parameter names "such as a target
platform label", matching the full label form that also appears in the known
parameter table. -/
def taskRunLabelTargetPlatform : String := "build.appstudio.redhat.com/target-platform"

/-- Display transform replacing every dash with a slash. -/
def dashToSlash (v : String) : String :=
  String.mk (v.data.map (fun c => if c = '-' then '/' else c))

/-- `KNOWN_MATRIX_PARAMETERS`: known annotation key → display-name transform. -/
def knownMatrixParameters : List (String × (String → String)) :=
  [ ("TARGET_PLATFORM", dashToSlash),
    ("build.appstudio.redhat.com/target-platform", dashToSlash),
    ("NODE_VERSION", fun v => "Node " ++ v),
    ("PYTHON_VERSION", fun v => "Python " ++ v),
    ("GO_VERSION", fun v => "Go " ++ v),
    ("JAVA_VERSION", fun v => "Java " ++ v),
    ("scan.appstudio.redhat.com/scan-type", fun v => v),
    ("ecosystem.appstudio.redhat.com/ecosystem", fun v => v),
    ("test.appstudio.redhat.com/node-version", fun v => "Node.js " ++ v) ]

/-- `sanitizeMatrixValue`: trims, strips tags and dangerous characters, removes
`javascript:` occurrences, and truncates to 100 characters; `null` and
`undefined` map to the empty string. -/
def sanitizeMatrixValue (value : Option String) : String :=
  match value with
  | none => String.mk []
  | some s => String.mk ((stripJsProto (removeDangerous (removeTags (jsTrim s.data)))).take 100)

/-- `createMatrixDisplayName`: applies the known-parameter transform to the
sanitized value (the transforms are total, so the source's try/catch around
them is dead). -/
def createMatrixDisplayName (parameter : String) (value : String) : String :=
  let sanitizedValue := sanitizeMatrixValue (some value)
  match assocLookup knownMatrixParameters parameter with
  | some f => f sanitizedValue
  | none => sanitizedValue

/-- The anchored regex of `detectMatrixParametersFromTaskRun` over annotation
keys: one-or-more of upper-case-or-underscore followed by any number of
upper-case, digit or underscore; equivalently, a non-empty string whose first
character is upper-case or underscore and whose remaining characters are
upper-case, digits or underscores. -/
def isUpperSnakeKey (key : String) : Bool :=
  match key.data with
  | [] => false
  | c :: cs =>
    (('A' ≤ c && c ≤ 'Z') || c = '_') &&
      cs.all (fun d => ('A' ≤ d && d ≤ 'Z') || ('0' ≤ d && d ≤ '9') || d = '_')

/-- JS `String.prototype.includes`. -/
def containsSubstr (s sub : String) : Bool := decide (sub.data <:+: s.data)

/-- `detectMatrixParametersFromTaskRun`: scans annotations in insertion order,
skips Tekton/Kubernetes bookkeeping keys and empty values, and keeps keys that
look like matrix parameters. -/
def detectMatrixParametersFromTaskRun (taskRun : TaskRun) : List MatrixParameterInfo :=
  match taskRun.metadata with
  | none => []
  | some md =>
    match md.annotations with
    | none => []
    | some annotations =>
      annotations.filterMap (fun kv =>
        let annotationKey := kv.1
        let annotationValue := kv.2
        if annotationKey = pipelineTaskLabel || annotationKey = "tekton.dev/pipeline" ||
            annotationKey = "tekton.dev/pipelineRun" ||
            annotationKey.startsWith ("tekton.dev/") ||
            annotationKey.startsWith ("app.kubernetes.io/") then none
        else if annotationValue.isEmpty then none
        else
          let isKnownParameter :=
            (assocLookup knownMatrixParameters annotationKey).isSome ||
              annotationKey = taskRunLabelTargetPlatform
          let isLikelyMatrix :=
            containsSubstr annotationKey ("VERSION") ||
            containsSubstr annotationKey ("PLATFORM") ||
            containsSubstr annotationKey ("TARGET") ||
            containsSubstr annotationKey ("MATRIX") ||
            containsSubstr annotationKey ("SCAN") ||
            containsSubstr annotationKey ("TYPE") ||
            isKnownParameter ||
            (isUpperSnakeKey annotationKey && annotationKey.length > 3 &&
              !containsSubstr annotationKey ("LABEL") &&
              !containsSubstr annotationKey ("RANDOM")) ||
            containsSubstr annotationKey ("appstudio.redhat.com")
          if isLikelyMatrix then
            let parameterName :=
              if annotationKey = taskRunLabelTargetPlatform then "TARGET_PLATFORM"
              else annotationKey
            some { parameter := annotationKey,
                   value := annotationValue,
                   displayName := createMatrixDisplayName parameterName annotationValue,
                   isKnownParameter := isKnownParameter }
          else none)

/-- Insertion-ordered grouping step: appends the record to the entry of `name`,
creating the entry at the end when absent — the behaviour of the JS pattern
`map.set(name, (map.get(name) || []).concat(tr))` over an insertion-ordered
`Map`. -/
def upsertGroup : List (String × List TaskRun) → String → TaskRun → List (String × List TaskRun)
  | [], name, tr => [(name, [tr])]
  | (n, l) :: rest, name, tr =>
    if n = name then (n, l ++ [tr]) :: rest else (n, l) :: upsertGroup rest name tr

/-- Grouping of task-run records by a resolved task name, preserving both the
per-key record order and the key insertion order. -/
def groupRunsBy (key : TaskRun → Option String) (taskRuns : List TaskRun) :
    List (String × List TaskRun) :=
  taskRuns.foldl
    (fun acc tr =>
      match key tr with
      | some n => upsertGroup acc n tr
      | none => acc) []

/-- Grouping key used by `detectMatrixTasks`: the pipeline-task label only,
under a JS truthiness test. -/
def detectRunTaskName (tr : TaskRun) : Option String :=
  let t := taskRunLabelName tr
  if strTruthy t then t else none

/-- `detectMatrixTasks`: groups records by pipeline-task label and flags each
logical task name as matrix when it has more than one record or any record
carries matrix-like annotation parameters.  The nested `forEach` of the source
sets its flag exactly when some record's detected parameter list is non-empty. -/
def detectMatrixTasks (taskRuns : List TaskRun) : List (String × MatrixTaskInfo) :=
  if taskRuns.isEmpty then [] else
    (groupRunsBy detectRunTaskName taskRuns).map (fun g =>
      let taskName := g.1
      let taskRunList := g.2
      let instanceCount := taskRunList.length
      let hasMatrixParameters :=
        taskRunList.any (fun tr => !(detectMatrixParametersFromTaskRun tr).isEmpty)
      let isMatrix := decide (instanceCount > 1) || hasMatrixParameters
      let matrixParameters :=
        match taskRunList.head? with
        | some tr => detectMatrixParametersFromTaskRun tr
        | none => []
      (taskName,
        { taskName := taskName, matrixParameters := matrixParameters,
          isMatrix := isMatrix, instanceCount := instanceCount }))


/-! Embedding of the task-status merger and task-list builder from
`pipelinerun-graph-utils.ts`. -/

structure Vulns where
  critical : Option Int := none
  high : Option Int := none
  medium : Option Int := none
  low : Option Int := none
  unknown : Option Int := none
deriving DecidableEq, Repr

structure ScanResults where
  vulnerabilities : Option Vulns := none
deriving DecidableEq, Repr

/-- The merged status record written by `createTaskWithStatus`
(a copy of the run status payload plus derived fields); `reason` is an
`Option` because the external classifiers may return `undefined`. -/
structure MergedStatus where
  reason : Option RunStatus := none
  duration : Option String := none
  testFailCount : Option Int := none
  testWarnCount : Option Int := none
  scanResults : Option ScanResults := none
  conditions : Option (List Condition) := none
  startTime : Option String := none
  completionTime : Option String := none
  steps : Option (List PLRTaskRunStep) := none
deriving DecidableEq, Repr

structure StepStatus where
  name : String
  status : RunStatus
  startTime : Option String := none
  endTime : Option String := none
deriving DecidableEq, Repr

/-- `PipelineTaskWithStatus`, extended with the matrix metadata of
`MatrixPipelineTaskWithStatus`.  The source overwrites the `steps` field of the
merged task with the computed per-step status list; the embedding keeps the
declared step list in `declaredSteps` and the computed list in `mergedSteps`
(placeholder records, which the source leaves with their declared steps, have
`mergedSteps = none`). -/
structure PipelineTaskWithStatus where
  name : String
  runAfter : Option (List String) := none
  params : Option (List Param) := none
  whenExprs : Option (List WhenExpr) := none
  matrix : Option MatrixDecl := none
  declaredSteps : Option (List NamedStep) := none
  taskSpec : Option TaskSpecDecl := none
  status : MergedStatus := {}
  mergedSteps : Option (List StepStatus) := none
  originalName : Option String := none
  matrixParameter : Option String := none
  matrixValue : Option String := none
  matrixDisplayName : Option String := none
  isMatrix : Option Bool := none
deriving DecidableEq, Repr

/-- External collaborators consumed by the embedded sources as black boxes:
run-state classifiers (`taskRunStatus`, `pipelineRunStatus` from
`pipeline-utils`), version probing (`isTaskV1Beta1`), duration formatting,
`Date` parsing, defensive `JSON.parse` of test/scan results (`none` models a
parse failure that the source catches and logs), the CVE-scan result detector,
and the pixel-width measurers of the rendering toolkit. -/
structure Ext where
  taskRunStatus : TaskRun → Option RunStatus
  pipelineRunStatus : Option PipelineRun → Option RunStatus
  isTaskV1Beta1 : TaskRun → Bool
  formatPrometheusDuration : Int → String
  parseDate : String → Int
  parseTestOutput : String → Option (Option Int × Option Int)
  parseScanResults : String → Option ScanResults
  isCVEScanResult : TektonResult → Bool
  getLabelWidth : String → Nat
  getTextWidth : String → Nat
  defaultNodeHeight : Nat

/-- `getMatchingStep`: finds the status step whose name matches (tolerating a
`step-` name inconsistency) and the step before the match — or the last
step when there is no match, exactly like the side-effecting `find` of the
source. -/
def getMatchingStepAux (stepName : String) :
    List PLRTaskRunStep → Option PLRTaskRunStep →
    Option PLRTaskRunStep × Option PLRTaskRunStep
  | [], prevStep => (none, prevStep)
  | s :: rest, prevStep =>
    if s.name = stepName || s.name = "step-" ++ stepName then (some s, prevStep)
    else getMatchingStepAux stepName rest (some s)

/-- `getMatchingStep` over a merged status (`status?.steps || []`). -/
def getMatchingStep (stepName : String) (status : MergedStatus) :
    Option PLRTaskRunStep × Option PLRTaskRunStep :=
  getMatchingStepAux stepName (status.steps.getD []) none

/-- `createStepStatus`: per-step run-state synthesis.  The `!status` arm of the
source's guard is unreachable here because every call site passes the merged
status record itself; `!status.reason` is the `reason.isNone` case. -/
def createStepStatus (stepName : String) (status : MergedStatus)
    (isFinalStep : Bool) : StepStatus :=
  let mp := getMatchingStep stepName status
  let matchingStep := mp.1
  let prevStep := mp.2
  if status.reason.isNone then
    { name := stepName, status := .cancelled }
  else
    match matchingStep with
    | none => { name := stepName, status := .pending }
    | some ms =>
      match ms.terminated with
      | some t =>
        { name := stepName,
          status :=
            if status.reason = some .testFailed && isFinalStep then .testFailed
            else if t.reason = "Completed" then .succeeded
            else .failed,
          startTime := t.startedAt,
          endTime := t.finishedAt }
      | none =>
        match ms.running with
        | some r =>
          match prevStep with
          | none => { name := stepName, status := .running, startTime := r.startedAt }
          | some p =>
            match p.terminated with
            | some pt =>
              { name := stepName, status := .running, startTime := pt.finishedAt }
            | none => { name := stepName, status := .pending }
        | none => { name := stepName, status := .pending }

/-- Lifts a static task definition into a task-with-status record carrying only
a status reason — the placeholder shape pushed by `appendStatus` for tasks
without usable run records. -/
def mkStatusOnlyTask (task : PipelineTask) (reason : Option RunStatus) :
    PipelineTaskWithStatus :=
  { name := task.name, runAfter := task.runAfter, params := task.params,
    whenExprs := task.whenExprs, matrix := task.matrix,
    declaredSteps := task.steps, taskSpec := task.taskSpec,
    status := { reason := reason } }

/-- `createTaskWithStatus`: merges a task definition with an optional run
record — copies the status payload, derives duration, classification reason,
test counts and scan results, and synthesizes per-step status. -/
def createTaskWithStatus (ext : Ext) (task : PipelineTask) :
    Option TaskRun → PipelineTaskWithStatus
  | none => mkStatusOnlyTask task (some .idle)
  | some taskRun =>
    let taskStatus := taskRun.status
    let taskResults :=
      if ext.isTaskV1Beta1 taskRun then taskStatus.bind (fun st => st.taskResults)
      else taskStatus.bind (fun st => st.results)
    let st0 : MergedStatus :=
      { reason := some .pending,
        conditions := taskStatus.bind (fun st => st.conditions),
        startTime := taskStatus.bind (fun st => st.startTime),
        completionTime := taskStatus.bind (fun st => st.completionTime),
        steps := taskStatus.bind (fun st => st.steps) }
    let st1 :=
      match st0.completionTime, st0.startTime with
      | some ct, some bt =>
        if !ct.isEmpty && !bt.isEmpty then
          { st0 with duration := some (ext.formatPrometheusDuration
              (ext.parseDate ct - ext.parseDate bt)) }
        else st0
      | _, _ => st0
    let st2 :=
      if st1.conditions.isSome then { st1 with reason := ext.taskRunStatus taskRun }
      else st1
    let st3 :=
      match taskResults with
      | none => st2
      | some results =>
        let testOutput := results.find? (fun r =>
          r.name = "HACBS_TEST_OUTPUT" || r.name = "TEST_OUTPUT")
        let stA :=
          match testOutput with
          | none => st2
          | some r =>
            match ext.parseTestOutput r.value with
            | none => st2
            | some fw => { st2 with testFailCount := fw.1, testWarnCount := fw.2 }
        match results.find? (fun r => ext.isCVEScanResult r) with
        | none => stA
        | some r =>
          match ext.parseScanResults r.value with
          | none => stA
          | some sr => { stA with scanResults := some sr }
    let stepNames : List String :=
      match taskStatus.bind (fun st => st.steps) with
      | some l => l.map (fun st => st.name)
      | none =>
        match task.steps with
        | some l => l.map (fun st => st.name)
        | none =>
          match task.taskSpec.bind (fun ts => ts.steps) with
          | some l => l.map (fun st => st.name)
          | none => []
    let total := stepNames.length
    { name := task.name, runAfter := task.runAfter, params := task.params,
      whenExprs := task.whenExprs, matrix := task.matrix,
      declaredSteps := task.steps, taskSpec := task.taskSpec,
      status := st3,
      mergedSteps := some (stepNames.mapIdx (fun i n =>
        createStepStatus n st3 (i + 1 = total))) }

/-- `getDisplayNameFromChildReferences`: looks up the child reference of a run
record by name and returns its display name sanitized; both a missing entry
and a falsy display name yield `undefined`. -/
def getDisplayNameFromChildReferences (pipelineRun : PipelineRun)
    (taskRunName : String) : Option String :=
  match pipelineRun.status.bind (fun st => st.childReferences) with
  | none => none
  | some childReferences =>
    match childReferences.find? (fun ref => ref.name = taskRunName) with
    | none => none
    | some childRef =>
      match childRef.displayName with
      | none => none
      | some dn => if dn.isEmpty then none else some (sanitizeDisplayName dn)

/-- The child-reference display name looked up by both the instance labeler and
the matrix entry builder: guarded by the truthiness of the run record's
metadata name. -/
def childRefDisplayNameOf (taskRun : TaskRun) (pipelineRun : PipelineRun) :
    Option String :=
  match taskRun.metadata.bind (fun md => md.name) with
  | none => none
  | some n => if n.isEmpty then none else getDisplayNameFromChildReferences pipelineRun n

/-- The mixed-radix fallback of `createMatrixInstanceLabel`, first parameter
fastest-varying; only reached when the position is below the combination count,
so every value list is non-empty there (the `getD` default mirrors the JS
stringification of an out-of-range indexing and is unreachable under that
guard). -/
def mixedRadixValues : List Param → Nat → List String
  | [], _ => []
  | p :: rest, remaining =>
    let values := paramValueToList p.value
    (values.getD (remaining % values.length) "undefined") ::
      mixedRadixValues rest (remaining / values.length)

/-- `createMatrixInstanceLabel`: child-reference display name first; then a
label derived from matrix parameter values (single-parameter indexing, actual
run-record values, or mixed-radix reconstruction); finally the positional
`Instance n` fallback.  The structure mirrors the early returns of the source:
when the single-parameter indexing finds no value, control falls through to the
multi-parameter code. -/
def createMatrixInstanceLabel (task : PipelineTask) (taskRun : TaskRun)
    (pipelineRun : PipelineRun) (index : Nat) : String :=
  let childRefDisplayName := childRefDisplayNameOf taskRun pipelineRun
  if strTruthy childRefDisplayName then childRefDisplayName.getD (String.mk [])
  else
    match task.matrix.bind (fun m => m.params) with
    | some matrixParams =>
      if matrixParams.length > 0 then
        let matrixParamNames := matrixParams.map (fun p => p.name)
        let taskRunParams := (taskRun.spec.bind (fun sp => sp.params)).getD []
        let matrixParamValues :=
          (taskRunParams.filter (fun p => matrixParamNames.contains p.name)).map
            (fun p => p.value)
        let singleHit : Option String :=
          if matrixParams.length = 1 then
            matrixParams.head?.bind (fun p => (paramValueToList p.value).get? index)
          else none
        match singleHit with
        | some v => v
        | none =>
          let totalCombinations :=
            matrixParams.foldl (fun t p => t * (paramValueToList p.value).length) 1
          if index < totalCombinations && matrixParamValues.length > 0 then
            String.intercalate ", " (matrixParamValues.map paramValueStr)
          else
            let paramValues :=
              if index < totalCombinations then mixedRadixValues matrixParams index
              else []
            if paramValues.length < 4 then String.intercalate ", " paramValues
            else "Instance " ++ toString (index + 1)
      else "Instance " ++ toString (index + 1)
    | none => "Instance " ++ toString (index + 1)

/-- The display-name / name-suffix pair chosen by `createMatrixTaskEntry` from
the child-reference display name, the provided matrix display name, and the
provided matrix value, in that priority order, with `unknown` as last resort. -/
def matrixEntryDisplayPair (childRefDisplayName matrixDisplayName matrixValue : Option String) :
    String × String :=
  if strTruthy childRefDisplayName then
    let c := childRefDisplayName.getD (String.mk [])
    (c, sanitizeNameSuffix c)
  else if strTruthy matrixDisplayName then
    let d := sanitizeDisplayName (matrixDisplayName.getD (String.mk []))
    (d, sanitizeNameSuffix d)
  else if strTruthy matrixValue then
    let v := matrixValue.getD (String.mk [])
    (v, sanitizeNameSuffix v)
  else ("unknown", "unknown")

/-- `createMatrixTaskEntry`: merges the task with the run record, renames it to
`originalName-suffix`, and attaches the matrix metadata. -/
def createMatrixTaskEntry (ext : Ext) (task : PipelineTask) (taskRun : TaskRun)
    (pipelineRun : PipelineRun)
    (matrixParameter matrixValue matrixDisplayName : Option String) :
    PipelineTaskWithStatus :=
  let matrixTask := createTaskWithStatus ext task (some taskRun)
  let pair := matrixEntryDisplayPair
    (childRefDisplayNameOf taskRun pipelineRun) matrixDisplayName matrixValue
  { matrixTask with
    name := task.name ++ "-" ++ pair.2,
    originalName := some task.name,
    matrixParameter := matrixParameter,
    matrixValue := matrixValue,
    matrixDisplayName := some pair.1,
    isMatrix := some true }

/-- A `forEach((x, index) => ...)` loop collecting its pushes. -/
def mapWithIndex {α β : Type} (f : Nat → α → β) : Nat → List α → List β
  | _, [] => []
  | i, a :: rest => f i a :: mapWithIndex f (i + 1) rest

/-- The task-name resolution of `appendStatus`'s grouping loop: the
pipeline-task label, falling back to the direct `pipelineTaskName` field when
the label is falsy, kept only when the result is truthy. -/
def resolveRunTaskName (tr : TaskRun) : Option String :=
  let t0 := taskRunLabelName tr
  let t1 :=
    if !strTruthy t0 && strTruthy tr.pipelineTaskName then tr.pipelineTaskName else t0
  if strTruthy t1 then t1 else none

/-- The run records grouped under one logical task name by `appendStatus`,
in record order (the denotation of the grouped map's per-key lists). -/
def taskRunsForName (taskRuns : List TaskRun) (name : String) : List TaskRun :=
  taskRuns.filter (fun tr => resolveRunTaskName tr = some name)

/-- Loop body of `appendStatus`'s `tasks.forEach`, producing the entries pushed
for one declared task. -/
def appendStatusForTask (ext : Ext) (pipelineRun : Option PipelineRun)
    (taskRuns : Option (List TaskRun)) (overallPipelineRunStatus : Option RunStatus)
    (matrixTasksMap : List (String × MatrixTaskInfo))
    (taskRunsByTaskName : List (String × List TaskRun))
    (task : PipelineTask) : List PipelineTaskWithStatus :=
  match pipelineRun with
  | none => [mkStatusOnlyTask task (some .pending)]
  | some plr =>
    match plr.status with
    | none => [mkStatusOnlyTask task (some .pending)]
    | some plrStatus =>
      match taskRuns with
      | none => [mkStatusOnlyTask task overallPipelineRunStatus]
      | some trs =>
        if trs.isEmpty then [mkStatusOnlyTask task overallPipelineRunStatus]
        else
          let taskRunsForTask := (assocLookup taskRunsByTaskName task.name).getD []
          if taskRunsForTask.isEmpty then
            let isSkipped :=
              (plrStatus.skippedTasks.getD []).any (fun t => t.name = task.name)
            [mkStatusOnlyTask task (some (if isSkipped then .skipped else .idle))]
          else
            let matrixInfo := assocLookup matrixTasksMap task.name
            let hasMultipleTaskRuns := decide (taskRunsForTask.length > 1)
            if (matrixInfo.map (fun i => i.isMatrix)).getD false || hasMultipleTaskRuns then
              mapWithIndex
                (fun index taskRun =>
                  let matrixLabel := createMatrixInstanceLabel task taskRun plr index
                  createMatrixTaskEntry ext task taskRun plr none (some matrixLabel) none)
                0 taskRunsForTask
            else
              [createTaskWithStatus ext task taskRunsForTask.head?]

/-- `appendStatus`: merges run status into each declared (or finally) task,
expanding matrix tasks into one entry per run record.  The `result.push`
accumulation of the source is the flat map of the per-task loop body. -/
def appendStatus (ext : Ext) (pipeline : Option Pipeline)
    (pipelineRun : Option PipelineRun) (taskRuns : Option (List TaskRun))
    (isFinallyTasks : Bool := false) : List PipelineTaskWithStatus :=
  match pipeline with
  | none => []
  | some p =>
    let tasks := (if isFinallyTasks then p.spec.finallyTasks else p.spec.tasks).getD []
    let overallPipelineRunStatus := ext.pipelineRunStatus pipelineRun
    let matrixTasksMap := detectMatrixTasks (taskRuns.getD [])
    let taskRunsByTaskName := groupRunsBy resolveRunTaskName (taskRuns.getD [])
    tasks.flatMap
      (appendStatusForTask ext pipelineRun taskRuns overallPipelineRunStatus
        matrixTasksMap taskRunsByTaskName)


/-! Embedding of the graph model builder from `pipelinerun-graph-utils.ts`.
The spacer-node synthesis, edge derivation and graph metadata of
`getGraphDataModel` are produced by the external rendering toolkit
(`getSpacerNodes` / `getEdgesFromNodes` of `react-topology`) and are outside
the embedded scope; the embedding stops at the node lists handed to them. -/

/-- Character class `[a-z0-9_-]` of the dependency-name capture group. -/
def isCapChar (c : Char) : Bool :=
  ('a' ≤ c && c ≤ 'z') || ('0' ≤ c && c ≤ '9') || c = '_' || c = '-'

/-- Character class `[.^\w]` following `results` in the dependency regex. -/
def isDotCaretWord (c : Char) : Bool :=
  c = '.' || c = '^' || ('a' ≤ c && c ≤ 'z') || ('A' ≤ c && c ≤ 'Z') ||
    ('0' ≤ c && c ≤ '9') || c = '_'

/-- Matches a literal character sequence, returning the remaining input. -/
def litMatch : List Char → List Char → Option (List Char)
  | [], l => some l
  | _ :: _, [] => none
  | p :: ps, c :: cs => if c = p then litMatch ps cs else none

/-- Backtracking over the `[.^\w]+` quantifier followed by the closing
parenthesis: tries consuming `k` class characters (the caller starts at the
maximal run, whose first `k` characters are always in the class), largest
first. -/
def tryClassParen : Nat → List Char → Option (List Char)
  | 0, _ => none
  | k + 1, l =>
    match l.drop (k + 1) with
    | ')' :: rest => some rest
    | _ => tryClassParen k l

/-- Backtracking over the `s+` quantifier: tries consuming `j` copies of `s`
(largest first), then `[.^\w]+` and `)`. -/
def trySPlus : Nat → List Char → Option (List Char)
  | 0, _ => none
  | j + 1, l =>
    let rest := l.drop (j + 1)
    match tryClassParen ((rest.takeWhile isDotCaretWord).length) rest with
    | some r => some r
    | none => trySPlus j l

/-- After the captured name: one arbitrary character (the unescaped dot of the
pattern), the literal `result`, then `s+`, `[.^\w]+` and `)`. -/
def tryAfterCapture : List Char → Option (List Char)
  | [] => none
  | _ :: rest =>
    match litMatch ['r','e','s','u','l','t'] rest with
    | none => none
    | some r2 => trySPlus ((r2.takeWhile (fun c => c = 's')).length) r2

/-- Backtracking over the greedy capture `([a-z0-9_-]+)`: tries capture length
`k` (largest first, at least one character), returning the captured characters
and the input remaining after the whole match. -/
def tryCapture : Nat → List Char → Option (List Char × List Char)
  | 0, _ => none
  | k + 1, l =>
    match tryAfterCapture (l.drop (k + 1)) with
    | some rest => some (l.take (k + 1), rest)
    | none => tryCapture k l

/-- One attempt of the dependency regex at the current position: the literal
`$(tasks`, one arbitrary character (the unescaped dot), then the capture and
its tail. -/
def tryMatchAt (l : List Char) : Option (List Char × List Char) :=
  match litMatch ['$','(','t','a','s','k','s'] l with
  | none => none
  | some r1 =>
    match r1 with
    | [] => none
    | _ :: r2 => tryCapture ((r2.takeWhile isCapChar).length) r2

/-- Global scan of `extractDepsFromContextVariables`: leftmost matches, resuming
after each match, deduplicating captures in first-seen order.  Every match
consumes at least one character, so the length-based fuel never runs out. -/
def extractLoop : Nat → List Char → List String → List String
  | 0, _, deps => deps
  | _ + 1, [], deps => deps
  | fuel + 1, c :: cs, deps =>
    match tryMatchAt (c :: cs) with
    | some capRest =>
      let capStr := String.mk capRest.1
      extractLoop fuel capRest.2
        (if deps.contains capStr then deps else deps ++ [capStr])
    | none => extractLoop fuel cs deps

/-- `extractDepsFromContextVariables`: collects the distinct task names
referenced by `$(tasks.<name>.results...)`-style expressions. -/
def extractDepsFromContextVariables (contextVariable : String) : List String :=
  extractLoop (contextVariable.data.length + 1) contextVariable.data []

inductive WhenStatusE
  | met | unmet
deriving DecidableEq, Repr

inductive PipelineRunNodeType
  | taskNode | finallyNode
deriving DecidableEq, Repr

/-- `getWhenStatus` from the source, on a possibly-undefined reason. -/
def getWhenStatus : Option RunStatus → Option WhenStatusE
  | some .succeeded => some .met
  | some .failed => some .met
  | some .skipped => some .unmet
  | some .inProgress => some .unmet
  | some .idle => some .unmet
  | _ => none

/-- `taskWhenStatus`: `undefined` without a `when` declaration, else the
when-status of the task's reason. -/
def taskWhenStatus (task : PipelineTaskWithStatus) : Option WhenStatusE :=
  if task.whenExprs.isNone then none else getWhenStatus task.status.reason

/-- The payload of a graph node (`PipelineRunNodeData`). -/
structure GraphNodeData where
  namespaceName : Option String := none
  status : Option RunStatus := none
  testFailCount : Option Int := none
  testWarnCount : Option Int := none
  scanResults : Option ScanResults := none
  whenStatus : Option WhenStatusE := none
  task : PipelineTaskWithStatus
  steps : Option (List StepStatus) := none
  taskRun : Option TaskRun := none
  level : Option Nat := none
deriving DecidableEq, Repr

/-- A render-ready node (`PipelineRunNodeModel`); `width` and `data.level` are
absent until the corresponding assignment passes run. -/
structure GraphNode where
  id : String
  nodeType : PipelineRunNodeType
  label : String
  runAfterTasks : List String
  height : Nat
  width : Option Nat := none
  data : GraphNodeData
deriving DecidableEq, Repr

/-- `getTaskBadgeCount`: test fail+warn counts, or the summed vulnerability
counts when the former are zero (the JS `||`). -/
def getTaskBadgeCount (data : GraphNodeData) : Int :=
  let a := data.testFailCount.getD 0 + data.testWarnCount.getD 0
  if a ≠ 0 then a
  else
    let v := data.scanResults.bind (fun sr => sr.vulnerabilities)
    (v.bind (fun x => x.critical)).getD 0 + (v.bind (fun x => x.high)).getD 0 +
      (v.bind (fun x => x.medium)).getD 0 + (v.bind (fun x => x.low)).getD 0 +
      (v.bind (fun x => x.unknown)).getD 0

/-- `getBadgeWidth` (badge padding 24, text width from the external measurer). -/
def getBadgeWidth (ext : Ext) (data : GraphNodeData) : Nat :=
  let badgeCount := getTaskBadgeCount data
  if badgeCount = 0 then 0 else 24 + ext.getTextWidth (toString badgeCount)

/-- `expandMatrixDependencies`: rewrites each dependency name against the
expanded task list — all instance names when the name matches the original
name of several matrix instances, the single instance's name when it matches
exactly one, the name itself otherwise. -/
def expandMatrixDependencies (deps : List String)
    (taskList : List PipelineTaskWithStatus) : List String :=
  deps.flatMap (fun dep =>
    let matrixInstances := taskList.filter (fun t => t.originalName = some dep)
    if matrixInstances.length > 1 then matrixInstances.map (fun t => t.name)
    else
      match matrixInstances with
      | [inst] => [inst.name]
      | _ => [dep])

/-- The `for (const otherDep of otherDeps)` loop of `hasParentDep`, abstracted
over the loop body: stops at the first body result that is `true` (the early
`return true`) or at an overflow (`none`), and yields `false` when the loop
finishes. -/
def hpdScan (step : String → Option Bool) : List String → Option Bool
  | [] => some false
  | otherDep :: rest =>
    match step otherDep with
    | none => none
    | some true => some true
    | some false => hpdScan step rest

/-- `hasParentDep`: recursive check whether `dep` is an ancestor of one of the
other dependencies.  The fuel models the JS call stack: `none` is the stack
overflow that unbounded recursion on cyclic data would raise.  When the
dependency has no node of its own, a node is looked up by matrix original name
and both its direct list and its ancestors are consulted; then the same two
checks run against the directly-found node (they reduce to a vacuous recursive
call when it is absent, because the optional chains are falsy). -/
def hasParentDep : Nat → String → List String → List GraphNode → Option Bool
  | 0, _, _, _ => none
  | fuel + 1, dep, otherDeps, nodes =>
    if otherDeps.isEmpty then some false
    else
      hpdScan
        (fun otherDep =>
          if otherDep = dep then some false
          else
            let depNode := nodes.find? (fun n => n.id = otherDep)
            let viaOriginal : Option Bool :=
              match depNode with
              | some _ => some false
              | none =>
                let depNodeByOriginal :=
                  nodes.find? (fun n => n.data.task.originalName = some otherDep)
                if (depNodeByOriginal.map (fun n => n.runAfterTasks.contains dep)).getD
                    false then some true
                else hasParentDep fuel dep
                  ((depNodeByOriginal.map (fun n => n.runAfterTasks)).getD []) nodes
            match viaOriginal with
            | none => none
            | some true => some true
            | some false =>
              if (depNode.map (fun n => n.runAfterTasks.contains dep)).getD false then
                some true
              else
                match hasParentDep fuel dep
                    ((depNode.map (fun n => n.runAfterTasks)).getD []) nodes with
                | none => none
                | some true => some true
                | some false => some false)
        otherDeps

/-- The `children.reduce(Math.max of the recursive level, 0)` accumulator loop
of `getNodeLevel`, abstracted over the recursive call. -/
def foldLevels (f : GraphNode → Option Nat) : List GraphNode → Nat → Option Nat
  | [], acc => some acc
  | c :: rest, acc =>
    match f c with
    | none => none
    | some l => foldLevels f rest (max l acc)

/-- `getNodeLevel`: one plus the maximal level of the nodes that depend on this
node, zero when none do.  Fuel models the JS call stack. -/
def getNodeLevel : Nat → GraphNode → List GraphNode → Option Nat
  | 0, _, _ => none
  | fuel + 1, node, allNodes =>
    let children := allNodes.filter (fun n => n.runAfterTasks.contains node.id)
    if children.isEmpty then some 0
    else
      match foldLevels (fun c => getNodeLevel fuel c allNodes) children 0 with
      | none => none
      | some m => some (m + 1)

def errTaskRunsUndefined : String := "TypeError: taskRuns is undefined"
def errMetadataUndefined : String := "TypeError: metadata is undefined"
def errLabelsUndefined : String := "TypeError: labels is undefined"
def errPipelineRunUndefined : String := "TypeError: pipelineRun is undefined"
def errStackOverflow : String := "RangeError: maximum call stack size exceeded"

/-- An unguarded JS property access: reading a property of `undefined` throws
a `TypeError`. -/
def jsGet {α : Type} : Option α → String → Except String α
  | some a, _ => .ok a
  | none, msg => .error msg

/-- The unguarded find over task-run records by pipeline-task label used in the
node builder and finally-node builder: reading `metadata.labels` of a record
without labels throws. -/
def findTaskRunByLabelM : List TaskRun → String → Except String (Option TaskRun)
  | [], _ => .ok none
  | tr :: rest, target => do
    let md ← jsGet tr.metadata errMetadataUndefined
    let lbls ← jsGet md.labels errLabelsUndefined
    if assocLookup lbls pipelineTaskLabel = some target then pure (some tr)
    else findTaskRunByLabelM rest target

/-- `taskRuns.find(tr => tr.metadata.labels[pipelineTask] === target)` with the
outer list itself possibly undefined. -/
def jsFindTaskRunByLabel (taskRuns : Option (List TaskRun)) (target : String) :
    Except String (Option TaskRun) := do
  let trs ← jsGet taskRuns errTaskRunsUndefined
  findTaskRunByLabelM trs target

/-- The node constructed by `getGraphDataModel` for one task-with-status
record: dependency collection from `runAfter`, parameter expressions and when
expressions; matrix dependency expansion; display label; and the task-run
lookup (by original name for matrix entries). -/
def buildTaskNode (ext : Ext) (pipelineRun : Option PipelineRun)
    (taskRuns : Option (List TaskRun)) (taskList : List PipelineTaskWithStatus)
    (task : PipelineTaskWithStatus) : Except String GraphNode := do
  let runAfterTasks :=
    (task.runAfter.getD []) ++
      ((task.params.getD []).flatMap (fun p =>
        match p.value with
        | .arr l => l.flatMap (fun v => extractDepsFromContextVariables v)
        | .str sv => extractDepsFromContextVariables sv)) ++
      ((task.whenExprs.getD []).flatMap (fun w =>
        extractDepsFromContextVariables w.input ++
          w.values.flatMap (fun v => extractDepsFromContextVariables v)))
  let expandedRunAfterTasks := expandMatrixDependencies runAfterTasks taskList
  let displayName :=
    if task.isMatrix.getD false && strTruthy task.matrixDisplayName then
      (if strTruthy task.originalName then task.originalName.getD (String.mk [])
       else task.name) ++ " (" ++ task.matrixDisplayName.getD (String.mk []) ++ ")"
    else task.name
  let taskRunForTask ←
    if task.isMatrix.getD false && strTruthy task.originalName then
      jsFindTaskRunByLabel taskRuns (task.originalName.getD (String.mk []))
    else
      jsFindTaskRunByLabel taskRuns task.name
  let plr ← jsGet pipelineRun errPipelineRunUndefined
  pure
    { id := task.name,
      nodeType := .taskNode,
      label := displayName,
      runAfterTasks := expandedRunAfterTasks,
      height := ext.defaultNodeHeight,
      data :=
        { namespaceName := plr.metadata.namespaceName,
          status := task.status.reason,
          testFailCount := task.status.testFailCount,
          testWarnCount := task.status.testWarnCount,
          scanResults := task.status.scanResults,
          whenStatus := taskWhenStatus task,
          task := task,
          steps := task.mergedSteps,
          taskRun := taskRunForTask } }

/-- Call-stack fuel used for the pruning recursion: in an acyclic dependency
graph the recursion depth is bounded by the number of nodes. -/
def hpdFuel (nodes : List GraphNode) : Nat := nodes.length + 2

/-- Keeps a dependency only when `hasParentDep` refutes it; fuel exhaustion is
the stack overflow of the JS recursion. -/
def pruneDepsOf (n : GraphNode) (ns : List GraphNode) : Except String (List String) :=
  n.runAfterTasks.foldrM
    (fun dep acc =>
      match hasParentDep (hpdFuel ns) dep n.runAfterTasks ns with
      | none => .error errStackOverflow
      | some b => .ok (if b then acc else dep :: acc)) []

/-- One step of the sequential `nodes.forEach` pruning mutation: node `i`'s
dependency list is filtered against the current state of the whole array
(earlier nodes are already pruned). -/
def pruneNodesStep (ns : List GraphNode) (i : Nat) : Except String (List GraphNode) :=
  match ns.get? i with
  | none => .ok ns
  | some n => do
    let filtered ← pruneDepsOf n ns
    .ok (ns.set i { n with runAfterTasks := filtered })

/-- The pruning pass (`Remove extraneous dependencies`). -/
def pruneNodes (ns : List GraphNode) : Except String (List GraphNode) :=
  (List.range ns.length).foldlM pruneNodesStep ns

/-- Level-and-width assignment pass: `data.level` from `getNodeLevel`, `width`
from the label and badge widths.  The level computation reads only `id` and
`runAfterTasks`, which this pass never changes, so the sequential mutation of
the source equals this map. -/
def assignLevelsAndWidths (ext : Ext) (ns : List GraphNode) :
    Except String (List GraphNode) :=
  ns.mapM (fun n =>
    match getNodeLevel (ns.length + 1) n ns with
    | none => .error errStackOverflow
    | some lv =>
      .ok { n with
        data := { n.data with level := some lv },
        width := some (ext.getLabelWidth n.label + getBadgeWidth ext n.data) })

/-- One step of the sequential per-level width maximisation (reading the
current widths, as the source's in-place mutation does). -/
def maxWidthStep (ns : List GraphNode) (i : Nat) : List GraphNode :=
  match ns.get? i with
  | none => ns
  | some n =>
    let levelNodes := ns.filter (fun m => m.data.level = n.data.level)
    let w := levelNodes.foldl (fun maxWidth m => max (m.width.getD 0) maxWidth) 0
    ns.set i { n with width := some w }

/-- The `Set the width of nodes to the max width for it's level` pass. -/
def maxWidthPerLevel (ns : List GraphNode) : List GraphNode :=
  (List.range ns.length).foldl maxWidthStep ns

/-- Stable insertion step for `jsStableSort`. -/
def jsSortInsert {α : Type} (le : α → α → Bool) (a : α) : List α → List α
  | [] => [a]
  | b :: rest => if le a b then a :: b :: rest else b :: jsSortInsert le a rest

/-- A stable sort.  `Array.prototype.sort` is specified as a stable,
comparator-consistent sort; for the total length comparator used on the
finally task list every stable sort produces the same list, so this insertion
sort realizes the JS contract. -/
def jsStableSort {α : Type} (le : α → α → Bool) : List α → List α
  | [] => []
  | a :: rest => jsSortInsert le a (jsStableSort le rest)

/-- The two node lists computed by `getGraphDataModel` and handed to the
external spacer/edge derivation. -/
structure GraphData where
  nodes : List GraphNode
  finallyNodes : List GraphNode
deriving DecidableEq, Repr

/-- `getGraphDataModel`: task list construction, node building, transitive
pruning, dangling-reference cleanup, level and width assignment, and the
finally-node list (whose construction first sorts the finally task list in
place by descending name length — stable, like the JS sort — so the nodes are
emitted in that order). -/
def getGraphDataModel (ext : Ext) (pipeline : Option Pipeline)
    (pipelineRun : Option PipelineRun) (taskRuns : Option (List TaskRun)) :
    Except String GraphData := do
  let taskList := appendStatus ext pipeline pipelineRun taskRuns
  let nodes ← taskList.mapM (buildTaskNode ext pipelineRun taskRuns taskList)
  let nodes2 ← pruneNodes nodes
  let validNodeIds := nodes2.map (fun n => n.id)
  let nodes3 := nodes2.map (fun n =>
    { n with runAfterTasks := n.runAfterTasks.filter (fun dep => validNodeIds.contains dep) })
  let nodes4 ← assignLevelsAndWidths ext nodes3
  let nodes5 := maxWidthPerLevel nodes4
  let finallyTaskList := appendStatus ext pipeline pipelineRun taskRuns true
  let sortedFinally :=
    jsStableSort (fun a b => decide (b.name.length ≤ a.name.length)) finallyTaskList
  let maxFinallyNodeName :=
    match (sortedFinally.head?.map (fun t => t.name)) with
    | some n => if n.isEmpty then String.mk [] else n
    | none => String.mk []
  let finallyNodes ← sortedFinally.mapM (fun fTask => do
    let plr ← jsGet pipelineRun errPipelineRunUndefined
    let trFound ← jsFindTaskRunByLabel taskRuns fTask.name
    pure
      { id := fTask.name,
        nodeType := PipelineRunNodeType.finallyNode,
        label := fTask.name,
        runAfterTasks := [],
        width := some (ext.getLabelWidth maxFinallyNodeName),
        height := ext.defaultNodeHeight,
        data :=
          { namespaceName := plr.metadata.namespaceName,
            status := fTask.status.reason,
            whenStatus := taskWhenStatus fTask,
            task := fTask,
            taskRun := trFound } })
  pure { nodes := nodes5, finallyNodes := finallyNodes }


/-! Embedding of `getTaskDisplayInfo` (task-display-utils) and of the
additional-info computation of the logs task list
(`PipelineRunLogs.render`). -/

structure TaskDisplayInfo where
  taskName : String
  additionalInfo : Option String := none
  displayString : String
deriving DecidableEq, Repr

/-- `tr.metadata.name` with the unguarded `metadata` access. -/
def metaNameOf (tr : TaskRun) : Except String (Option String) := do
  let md ← jsGet tr.metadata errMetadataUndefined
  pure md.name

/-- The task-run records whose pipeline-task label equals the task name — the
matrix-decision filter shared by `getTaskDisplayInfo` and the logs list. -/
def matrixTaskRunsFor (allTaskRuns : List TaskRun) (taskName : String) :
    List TaskRun :=
  allTaskRuns.filter (fun tr => taskRunLabelName tr = some taskName)

/-- `findIndex(tr => tr.metadata.name === target)` with the unguarded
`metadata` access; `none` is the `-1` result. -/
def findIndexByMetaName : List TaskRun → Option String → Nat →
    Except String (Option Nat)
  | [], _, _ => .ok none
  | tr :: rest, target, i => do
    let n ← metaNameOf tr
    if n = target then pure (some i) else findIndexByMetaName rest target (i + 1)

/-- `childReferences.find(ref => ref.name === taskRun.metadata.name)`; the
unguarded metadata access happens inside the callback, so an empty reference
list reads nothing. -/
def findRefM : List ChildReference → TaskRun →
    Except String (Option ChildReference)
  | [], _ => .ok none
  | r :: rest, tr => do
    let t ← metaNameOf tr
    if some r.name = t then pure (some r) else findRefM rest tr

/-- `getTaskDisplayInfo` from `task-display-utils`: decides matrix-vs-regular
by counting run records with this task's label; a matrix task is labelled with
`createMatrixInstanceLabel` at the record's index among those records, a
regular task with the raw child-reference display name; the display string
appends the truthy additional info in parentheses. -/
def getTaskDisplayInfo (task : PipelineTask) (taskRun : TaskRun)
    (pipelineRun : PipelineRun) (allTaskRuns : List TaskRun) :
    Except String TaskDisplayInfo := do
  let taskName := task.name
  let matrixTaskRuns := matrixTaskRunsFor allTaskRuns taskName
  let isMatrixTask := decide (matrixTaskRuns.length > 1)
  let additionalInfo ←
    if isMatrixTask then do
      let target ← metaNameOf taskRun
      let instanceIndex ← findIndexByMetaName matrixTaskRuns target 0
      match instanceIndex with
      | some i => pure (some (createMatrixInstanceLabel task taskRun pipelineRun i))
      | none => pure (none : Option String)
    else
      match pipelineRun.status.bind (fun st => st.childReferences) with
      | none => pure (none : Option String)
      | some refs => do
        let childRef ← findRefM refs taskRun
        match childRef with
        | some r => if strTruthy r.displayName then pure r.displayName else pure none
        | none => pure none
  let displayString :=
    if strTruthy additionalInfo then
      taskName ++ " (" ++ additionalInfo.getD (String.mk []) ++ ")"
    else taskName
  pure { taskName := taskName, additionalInfo := additionalInfo,
         displayString := displayString }

/-- `taskRuns.find(t => t.metadata.name === taskRunName)` of the logs list. -/
def findByMetaNameM : List TaskRun → String → Except String (Option TaskRun)
  | [], _ => .ok none
  | tr :: rest, taskRunName => do
    let n ← metaNameOf tr
    if n = some taskRunName then pure (some tr) else findByMetaNameM rest taskRunName

/-- The additional-info computation of one logs task-list row
(`PipelineRunLogs.render`, the body of `taskRunNames.map`): looks the record
up by name, resolves its pipeline task from the run's pipeline spec, uses the
same count-based matrix decision and `createMatrixInstanceLabel` call as
`getTaskDisplayInfo`, and otherwise the raw child-reference display name. -/
def logsAdditionalInfo (obj : PipelineRun) (taskRuns : List TaskRun)
    (taskRunName : String) : Except String (Option String) := do
  let taskRun ← findByMetaNameM taskRuns taskRunName
  let currentTaskNameOpt := taskRun.bind (fun tr => taskRunLabelName tr)
  let currentTaskName :=
    if strTruthy currentTaskNameOpt then currentTaskNameOpt.getD (String.mk [])
    else "-"
  match taskRun with
  | none => pure none
  | some tr =>
    let pipelineTask :=
      ((obj.status.bind (fun st => st.pipelineSpec)).bind (fun ps => ps.tasks)).bind
        (fun tasks => tasks.find? (fun t => t.name = currentTaskName))
    match pipelineTask with
    | none => pure none
    | some pt =>
      let matrixTaskRuns := matrixTaskRunsFor taskRuns currentTaskName
      if matrixTaskRuns.length > 1 then do
        let instanceIndex ← findIndexByMetaName matrixTaskRuns (some taskRunName) 0
        match instanceIndex with
        | some i => pure (some (createMatrixInstanceLabel pt tr obj i))
        | none => pure none
      else
        match obj.status.bind (fun st => st.childReferences) with
        | none => pure none
        | some refs => do
          let childRef ← findRefM refs tr
          match childRef with
          | some r => if strTruthy r.displayName then pure r.displayName else pure none
          | none => pure none


/-! Concrete fixtures used by witnesses and counterexamples. -/

/-- A concrete instantiation of the external collaborators, used to evaluate
the embedding on fixtures. -/
def ext0 : Ext :=
  { taskRunStatus := fun _ => some .succeeded,
    pipelineRunStatus := fun _ => some .running,
    isTaskV1Beta1 := fun _ => false,
    formatPrometheusDuration := fun _ => String.mk [],
    parseDate := fun _ => 0,
    parseTestOutput := fun _ => none,
    parseScanResults := fun _ => none,
    isCVEScanResult := fun _ => false,
    getLabelWidth := fun str => str.length,
    getTextWidth := fun str => str.length,
    defaultNodeHeight := 32 }

/-- A run record for task `security-scan` carrying a matrix-like `SCAN_TYPE`
annotation (single instance). -/
def trScan : TaskRun :=
  { metadata := some
      { name := some "security-scan-abc",
        labels := some [(pipelineTaskLabel, "security-scan")],
        annotations := some [("SCAN_TYPE", "virus")] },
    status := some { conditions := some [{ reason := "Succeeded" }] } }

/-- A pipeline declaring the single task `security-scan`. -/
def pipeScan : Pipeline := { spec := { tasks := some [{ name := "security-scan" }] } }

/-- A pipeline-run with an (empty) status object. -/
def plrEmptyStatus : PipelineRun := { status := some {} }

/-- First of two run records for task `build`. -/
def trBuild0 : TaskRun :=
  { metadata := some
      { name := some "build-0",
        labels := some [(pipelineTaskLabel, "build")] },
    status := some {} }

/-- Second of two run records for task `build`. -/
def trBuild1 : TaskRun :=
  { metadata := some
      { name := some "build-1",
        labels := some [(pipelineTaskLabel, "build")] },
    status := some {} }

/-- A pipeline-run whose child references give both `build` records the same
display name. -/
def plrSameNames : PipelineRun :=
  { status := some
      { childReferences := some
          [{ name := "build-0", displayName := some "same" },
           { name := "build-1", displayName := some "same" }] } }

/-- A pipeline declaring the single task `build`. -/
def pipeBuild : Pipeline := { spec := { tasks := some [{ name := "build" }] } }

/-- A pipeline-run whose status also carries the pipeline spec of `pipeBuild`
(for the logs view, which resolves tasks from `status.pipelineSpec`). -/
def plrWithBuildSpec : PipelineRun :=
  { status := some { pipelineSpec := some { tasks := some [{ name := "build" }] } } }

/-- A run record with metadata but no labels (no resolvable task name). -/
def trNoLabels : TaskRun := { metadata := some { name := some "stray" } }

/-- A pipeline with two tasks where `b` declares `runAfter: [a]`. -/
def pipeAB : Pipeline :=
  { spec := { tasks := some [{ name := "a" }, { name := "b", runAfter := some ["a"] }] } }

/-- A task declaring a single matrix parameter whose only value is the empty
string. -/
def taskEmptyMatrixValue : PipelineTask :=
  { name := "t", matrix := some { params := some [{ name := "P", value := .arr [""] }] } }

/-- The 101-character string of 99 `a`s, a space, and a `b`: its sanitized form
is truncated right after the space, which a second sanitization pass trims. -/
def c8Input : String := String.mk (List.replicate 99 'a' ++ [' ', 'b'])

/-- A standalone parent node (no dependencies). -/
def nodeA : GraphNode :=
  { id := "a", nodeType := .taskNode, label := "a", runAfterTasks := [],
    height := 32, data := { task := mkStatusOnlyTask { name := "a" } none } }

/-- A standalone child node depending on `nodeA`. -/
def nodeB : GraphNode :=
  { id := "b", nodeType := .taskNode, label := "b", runAfterTasks := ["a"],
    height := 32, data := { task := mkStatusOnlyTask { name := "b" } none } }

/-- A run record named `x-0` (for the tag-only display-name fixture). -/
def trTagged : TaskRun := { metadata := some { name := some "x-0" } }

/-- A pipeline-run whose child reference for `x-0` has a display name that is
only an HTML tag, sanitizing to the empty string. -/
def plrTagged : PipelineRun :=
  { status := some
      { childReferences := some [{ name := "x-0", displayName := some "<b></b>" }] } }

/-- A pipeline-run with its child-reference metadata removed — the reference
point for "the child-reference branch is treated as absent". -/
def withoutChildReferences (plr : PipelineRun) : PipelineRun :=
  { plr with status := plr.status.map (fun st => { st with childReferences := none }) }

/-- The graph model computed for the two-record `build` matrix fixture. -/
def c9res : GraphData :=
  (getGraphDataModel ext0 (some pipeBuild) (some plrEmptyStatus)
      (some [trBuild0, trBuild1])).toOption.getD { nodes := [], finallyNodes := [] }

/-- The second expanded matrix instance node of that graph model. -/
def c9node : GraphNode := (c9res.nodes.get? 1).getD nodeA

/-! Helper lemmas. -/

theorem removeTagsAux_no_lt {l : List Char} (h : '<' ∉ l) :
    removeTagsAux l none = l := by
  induction l with
  | nil => rfl
  | cons c cs ih =>
    have hc : ¬ c = '<' := fun hcc => h (hcc ▸ List.mem_cons_self c cs)
    have hcs : '<' ∉ cs := fun hmem => h (List.mem_cons_of_mem c hmem)
    simp [removeTagsAux, hc, ih hcs]

theorem dropWhile_head_not (p : Char → Bool) (l : List Char) :
    ∀ c cs, l.dropWhile p = c :: cs → p c = false := by
  induction l with
  | nil => intro c cs h; simp [List.dropWhile] at h
  | cons a as ih =>
    intro c cs h
    by_cases hp : p a
    · rw [List.dropWhile_cons_of_pos hp] at h
      exact ih c cs h
    · rw [List.dropWhile_cons_of_neg hp] at h
      cases h
      simpa using hp

theorem dropWhile_of_head_not (p : Char → Bool) (l : List Char)
    (h : ∀ c cs, l = c :: cs → p c = false) : l.dropWhile p = l := by
  cases l with
  | nil => rfl
  | cons c cs => rw [List.dropWhile_cons_of_neg (by simp [h c cs rfl])]

theorem jsTrim_idem (l : List Char) : jsTrim (jsTrim l) = jsTrim l := by
  unfold jsTrim
  set a := l.dropWhile isJsWhitespace with ha
  set b := a.reverse.dropWhile isJsWhitespace with hb
  have h1 : b.reverse.dropWhile isJsWhitespace = b.reverse := by
    apply dropWhile_of_head_not
    intro c cs hc
    have hpre : b.reverse <+: a := by
      have : b <:+ a.reverse := by rw [hb]; exact List.dropWhile_suffix _
      have := this.reverse
      simpa using this
    rcases hpre with ⟨t, ht⟩
    rw [hc] at ht
    have hda : a.dropWhile isJsWhitespace = a := by
      rw [ha, List.dropWhile_idempotent]
    rw [← ht] at hda
    exact dropWhile_head_not _ _ c (cs ++ t) hda
  rw [h1]
  have h2 : b.reverse.reverse.dropWhile isJsWhitespace = b := by
    rw [List.reverse_reverse]
    apply dropWhile_of_head_not
    intro c cs hc
    exact dropWhile_head_not isJsWhitespace a.reverse c cs (by rw [← hb, hc])
  rw [h2]

theorem mem_jsTrim {c : Char} {l : List Char} (h : c ∈ jsTrim l) : c ∈ l := by
  unfold jsTrim at h
  rw [List.mem_reverse] at h
  have h2 := (List.dropWhile_sublist isJsWhitespace (l := (l.dropWhile isJsWhitespace).reverse)).subset h
  rw [List.mem_reverse] at h2
  exact (List.dropWhile_sublist isJsWhitespace (l := l)).subset h2

theorem mem_sanitizeCore_props {c : Char} {x : String} (h : c ∈ sanitizeCore x) :
    c ≠ '<' ∧ c ≠ '>' ∧ c ≠ '&' := by
  unfold sanitizeCore at h
  have h2 := mem_jsTrim h
  unfold removeDangerous at h2
  have h3 := (List.mem_filter.mp h2).2
  refine ⟨?_, ?_, ?_⟩ <;> (intro hc; subst hc; simp at h3)

theorem sanitizeCore_no_lt {x : String} : '<' ∉ sanitizeCore x :=
  fun h => (mem_sanitizeCore_props h).1 rfl

theorem removeDangerous_sanitizeCore (x : String) :
    removeDangerous (sanitizeCore x) = sanitizeCore x := by
  apply List.filter_eq_self.mpr
  intro c hc
  obtain ⟨h1, h2, h3⟩ := mem_sanitizeCore_props hc
  simp [h1, h2, h3]

theorem jsTrim_sanitizeCore (x : String) : jsTrim (sanitizeCore x) = sanitizeCore x := by
  unfold sanitizeCore
  exact jsTrim_idem _

theorem sanitizeCore_mk_core (x : String) :
    sanitizeCore (String.mk (sanitizeCore x)) = sanitizeCore x := by
  conv_lhs => rw [sanitizeCore]
  show jsTrim (removeDangerous (removeTags (sanitizeCore x))) = _
  rw [show removeTags (sanitizeCore x) = sanitizeCore x from
    removeTagsAux_no_lt sanitizeCore_no_lt]
  rw [removeDangerous_sanitizeCore, jsTrim_sanitizeCore]

theorem sanitizeDisplayName_eq_core {x : String}
    (h : (sanitizeCore x).length ≤ 100) :
    sanitizeDisplayName x = String.mk (sanitizeCore x) := by
  by_cases hx : x.isEmpty
  · have hxe : x = "" := (String.isEmpty_iff x).mp hx
    subst hxe
    rfl
  · unfold sanitizeDisplayName
    rw [if_neg hx]
    have hle : ¬ (sanitizeCore x).length > 100 := by omega
    simp only [hle, if_false]


/-- C8 (counterexample): `sanitizeDisplayName` is not idempotent as the claim
states — on the 101-character input of 99 `a`s, a space and a `b`, truncation
at 100 characters leaves a trailing space that a second pass trims away. -/
theorem c8_sanitize_idempotence_cex :
    sanitizeDisplayName (sanitizeDisplayName c8Input) ≠ sanitizeDisplayName c8Input := by
  decide

/-- C8 (amended): the output of `sanitizeDisplayName` never exceeds 100
characters, contains none of the characters `<`, `>`, `&`, and is the empty
string on empty or undefined input; it is idempotent on every input whose
trimmed sanitized text has at most 100 characters — the unrestricted
idempotence of the claim fails because truncation can expose trailing
whitespace that a second application trims. -/
theorem c8_sanitize_amended :
    (∀ x : String, (sanitizeDisplayName x).length ≤ 100) ∧
    (∀ x : String, ∀ c ∈ (sanitizeDisplayName x).data, c ≠ '<' ∧ c ≠ '>' ∧ c ≠ '&') ∧
    (sanitizeDisplayName "" = "" ∧ sanitizeDisplayNameOpt none = "") ∧
    (∀ x : String, (sanitizeCore x).length ≤ 100 →
      sanitizeDisplayName (sanitizeDisplayName x) = sanitizeDisplayName x) := by
  have hmk : ∀ l : List Char, (String.mk l).length = l.length := fun _ => rfl
  have hdata : ∀ l : List Char, (String.mk l).data = l := fun _ => rfl
  refine ⟨?_, ?_, ⟨rfl, rfl⟩, ?_⟩
  · intro x
    unfold sanitizeDisplayName
    by_cases hx : x.isEmpty
    · simp [hx, hmk]
    · rw [if_neg hx]
      by_cases hlen : (sanitizeCore x).length > 100
      · simp only [hlen, if_true, hmk, List.length_take]
        omega
      · simp only [hlen, if_false, hmk]
        omega
  · intro x c hc
    unfold sanitizeDisplayName at hc
    by_cases hx : x.isEmpty
    · rw [if_pos hx] at hc
      simp at hc
    · rw [if_neg hx] at hc
      by_cases hlen : (sanitizeCore x).length > 100
      · simp only [hlen, if_true, hdata] at hc
        exact mem_sanitizeCore_props (List.take_subset _ _ hc)
      · simp only [hlen, if_false, hdata] at hc
        exact mem_sanitizeCore_props hc
  · intro x h
    rw [sanitizeDisplayName_eq_core h]
    have hc : sanitizeCore (String.mk (sanitizeCore x)) = sanitizeCore x :=
      sanitizeCore_mk_core x
    rw [sanitizeDisplayName_eq_core (by rw [hc]; exact h), hc]

/-- C8 (witness): the amended idempotence applied at a concrete input. -/
theorem c8_sanitize_witness :
    sanitizeDisplayName (sanitizeDisplayName " <b>hi</b> & bye ") =
      sanitizeDisplayName " <b>hi</b> & bye " :=
  c8_sanitize_amended.2.2.2 " <b>hi</b> & bye " (by decide)


theorem assocLookup_upsertGroup_self (acc : List (String × List TaskRun))
    (name : String) (tr : TaskRun) :
    assocLookup (upsertGroup acc name tr) name =
      some ((assocLookup acc name).getD [] ++ [tr]) := by
  induction acc with
  | nil => simp [upsertGroup, assocLookup]
  | cons kv rest ih =>
    obtain ⟨n, l⟩ := kv
    by_cases h : n = name
    · subst h; simp [upsertGroup, assocLookup]
    · simp [upsertGroup, assocLookup, h, ih]

theorem assocLookup_upsertGroup_other (acc : List (String × List TaskRun))
    (name m : String) (tr : TaskRun) (hne : m ≠ name) :
    assocLookup (upsertGroup acc m tr) name = assocLookup acc name := by
  induction acc with
  | nil => simp [upsertGroup, assocLookup, hne]
  | cons kv rest ih =>
    obtain ⟨n, l⟩ := kv
    by_cases h : n = m
    · subst h; simp [upsertGroup, assocLookup, hne]
    · simp [upsertGroup, assocLookup, h, ih]

theorem groupRunsBy_aux (key : TaskRun → Option String) (trs : List TaskRun)
    (acc : List (String × List TaskRun)) (name : String) :
    (assocLookup
        (trs.foldl (fun a tr =>
          match key tr with
          | some n => upsertGroup a n tr
          | none => a) acc) name).getD [] =
      (assocLookup acc name).getD [] ++
        trs.filter (fun tr => key tr = some name) := by
  induction trs generalizing acc with
  | nil => simp
  | cons tr rest ih =>
    simp only [List.foldl_cons]
    cases hk : key tr with
    | none =>
      rw [ih]
      simp [List.filter_cons, hk]
    | some n =>
      by_cases h : n = name
      · subst h
        rw [ih, assocLookup_upsertGroup_self]
        simp [List.filter_cons, hk, List.append_assoc]
      · rw [ih, assocLookup_upsertGroup_other _ _ _ _ h]
        simp [List.filter_cons, hk, h]

theorem groupRunsBy_lookupD (key : TaskRun → Option String) (trs : List TaskRun)
    (name : String) :
    (assocLookup (groupRunsBy key trs) name).getD [] =
      trs.filter (fun tr => key tr = some name) := by
  unfold groupRunsBy
  rw [groupRunsBy_aux]
  simp [assocLookup]

theorem assocLookup_map {β γ : Type} (f : String → β → γ)
    (l : List (String × β)) (key : String) :
    assocLookup (l.map (fun g => (g.1, f g.1 g.2))) key =
      (assocLookup l key).map (f key) := by
  induction l with
  | nil => rfl
  | cons kv rest ih =>
    obtain ⟨n, v⟩ := kv
    by_cases h : n = key
    · subst h; simp [assocLookup]
    · simp [assocLookup, h, ih]

theorem mapWithIndex_length {α β : Type} (f : Nat → α → β) (s : Nat) (l : List α) :
    (mapWithIndex f s l).length = l.length := by
  induction l generalizing s with
  | nil => rfl
  | cons a rest ih => simp [mapWithIndex, ih]

theorem mapWithIndex_mem {α β : Type} {f : Nat → α → β} {s : Nat} {l : List α}
    {b : β} (h : b ∈ mapWithIndex f s l) : ∃ i a, a ∈ l ∧ b = f i a := by
  induction l generalizing s with
  | nil => simp [mapWithIndex] at h
  | cons x rest ih =>
    simp only [mapWithIndex, List.mem_cons] at h
    rcases h with h | h
    · exact ⟨s, x, List.mem_cons_self x rest, h⟩
    · obtain ⟨i, a, ha, hb⟩ := ih h
      exact ⟨i, a, List.mem_cons_of_mem x ha, hb⟩

theorem mapWithIndex_map {α β γ : Type} (f : Nat → α → β) (g : β → γ) (s : Nat)
    (l : List α) :
    (mapWithIndex f s l).map g = mapWithIndex (fun i a => g (f i a)) s l := by
  induction l generalizing s with
  | nil => rfl
  | cons a rest ih => simp [mapWithIndex, ih]

theorem createTaskWithStatus_name (ext : Ext) (task : PipelineTask)
    (o : Option TaskRun) : (createTaskWithStatus ext task o).name = task.name := by
  cases o <;> rfl

theorem createTaskWithStatus_no_matrix (ext : Ext) (task : PipelineTask)
    (o : Option TaskRun) :
    (createTaskWithStatus ext task o).isMatrix = none ∧
    (createTaskWithStatus ext task o).originalName = none ∧
    (createTaskWithStatus ext task o).matrixDisplayName = none := by
  cases o <;> exact ⟨rfl, rfl, rfl⟩

theorem createMatrixTaskEntry_fields (ext : Ext) (task : PipelineTask)
    (taskRun : TaskRun) (pipelineRun : PipelineRun)
    (mp mv md : Option String) :
    (createMatrixTaskEntry ext task taskRun pipelineRun mp mv md).originalName =
        some task.name ∧
    (createMatrixTaskEntry ext task taskRun pipelineRun mp mv md).isMatrix =
        some true ∧
    (createMatrixTaskEntry ext task taskRun pipelineRun mp mv md).name =
        task.name ++ "-" ++
          (matrixEntryDisplayPair (childRefDisplayNameOf taskRun pipelineRun) md mv).2 :=
  ⟨rfl, rfl, rfl⟩

theorem matrixEntryDisplayPair_snd_sanitized (a b c : Option String) :
    ∃ src, (matrixEntryDisplayPair a b c).2 = sanitizeNameSuffix src := by
  unfold matrixEntryDisplayPair
  split
  · exact ⟨_, rfl⟩
  · split
    · exact ⟨_, rfl⟩
    · split
      · exact ⟨_, rfl⟩
      · exact ⟨"unknown", by decide⟩

theorem strTruthy_guard_ne_empty {o : Option String} {s : String}
    (h : (if strTruthy o = true then o else none) = some s) : s ≠ "" := by
  by_cases ht : strTruthy o = true
  · rw [if_pos ht] at h
    subst h
    intro he
    subst he
    exact absurd ht (by decide)
  · rw [if_neg ht] at h
    exact absurd h (by simp)

theorem resolveRunTaskName_ne_empty {tr : TaskRun} {s : String}
    (h : resolveRunTaskName tr = some s) : s ≠ "" :=
  strTruthy_guard_ne_empty h

theorem detectRunTaskName_imp_resolve {tr : TaskRun} {s : String}
    (h : detectRunTaskName tr = some s) : resolveRunTaskName tr = some s := by
  have h' : (if strTruthy (taskRunLabelName tr) = true
      then taskRunLabelName tr else none) = some s := h
  by_cases ht : strTruthy (taskRunLabelName tr) = true
  · rw [if_pos ht] at h'
    rw [h'] at ht
    simp [resolveRunTaskName, h', ht]
  · rw [if_neg ht] at h'
    exact absurd h' (by simp)

theorem list_flatMap_singleton {α β : Type} (l : List α) (g : α → β) :
    l.flatMap (fun a => [g a]) = l.map g := by
  induction l with
  | nil => rfl
  | cons a rest ih => simp [ih]


theorem isEmpty_false_of_length_pos {α : Type} {l : List α} (h : 0 < l.length) :
    l.isEmpty = false := by
  cases l with
  | nil => simp at h
  | cons a rest => rfl

theorem trs_ne_nil_of_group {trs : List TaskRun} {name : String}
    (h : 0 < (taskRunsForName trs name).length) : trs.isEmpty = false := by
  cases trs with
  | nil => simp [taskRunsForName] at h
  | cons a rest => rfl

/-- Branch lemma: with a run status present and more than one grouped record
for the task, the loop body of `appendStatus` takes the matrix-expansion
branch. -/
theorem appendStatusForTask_matrix (ext : Ext) (plr : PipelineRun) (st : PLRStatus)
    (trs : List TaskRun) (matrixMap : List (String × MatrixTaskInfo))
    (t : PipelineTask)
    (hst : plr.status = some st)
    (hk : 1 < (taskRunsForName trs t.name).length) :
    appendStatusForTask ext (some plr) (some trs) (ext.pipelineRunStatus (some plr))
        matrixMap (groupRunsBy resolveRunTaskName trs) t =
      mapWithIndex (fun i tr => createMatrixTaskEntry ext t tr plr none
        (some (createMatrixInstanceLabel t tr plr i)) none) 0
        (taskRunsForName trs t.name) := by
  have hgrp : (assocLookup (groupRunsBy resolveRunTaskName trs) t.name).getD [] =
      taskRunsForName trs t.name := groupRunsBy_lookupD _ _ _
  have hne : trs.isEmpty = false :=
    @trs_ne_nil_of_group trs t.name (by omega)
  have hnonempty : (taskRunsForName trs t.name).isEmpty = false :=
    isEmpty_false_of_length_pos (by omega)
  have hmul : decide ((taskRunsForName trs t.name).length > 1) = true := by
    simpa using hk
  simp only [appendStatusForTask, hst, hne, Bool.false_eq_true, if_false, hgrp,
    hnonempty, hmul, Bool.or_true, if_true]

/-- C2 (counterexample): two run records of one task whose child references
carry the same display name produce two entries with the same name
`build-same`, so the claimed pairwise distinctness fails. -/
theorem c2_matrix_expansion_cex :
    (appendStatus ext0 (some pipeBuild) (some plrSameNames)
        (some [trBuild0, trBuild1]) false).map (fun e => e.name) =
      ["build-same", "build-same"] ∧
    ¬ ((appendStatus ext0 (some pipeBuild) (some plrSameNames)
        (some [trBuild0, trBuild1]) false).map (fun e => e.name)).Nodup := by
  constructor
  · decide
  · decide

/-- C2 (amended): for a declared task with more than one grouped run record
(non-null pipeline, run status present), `appendStatus` emits exactly one entry
per record, consecutively at the task's declared position and in record order,
each named `originalName-<sanitized suffix>` and carrying `originalName` and
the `isMatrix` flag; the names are pairwise distinct whenever the computed
sanitized suffixes are pairwise distinct (the claim's unconditional
distinctness fails when two records sanitize to the same suffix). -/
theorem c2_matrix_expansion_amended (ext : Ext) (p : Pipeline) (plr : PipelineRun)
    (st : PLRStatus) (trs : List TaskRun) (t : PipelineTask)
    (pre post : List PipelineTask)
    (hst : plr.status = some st)
    (htasks : p.spec.tasks = some (pre ++ t :: post))
    (hk : 1 < (taskRunsForName trs t.name).length) :
    appendStatus ext (some p) (some plr) (some trs) false =
      pre.flatMap (appendStatusForTask ext (some plr) (some trs)
          (ext.pipelineRunStatus (some plr)) (detectMatrixTasks trs)
          (groupRunsBy resolveRunTaskName trs)) ++
        mapWithIndex (fun i tr => createMatrixTaskEntry ext t tr plr none
          (some (createMatrixInstanceLabel t tr plr i)) none) 0
          (taskRunsForName trs t.name) ++
        post.flatMap (appendStatusForTask ext (some plr) (some trs)
          (ext.pipelineRunStatus (some plr)) (detectMatrixTasks trs)
          (groupRunsBy resolveRunTaskName trs)) ∧
    (mapWithIndex (fun i tr => createMatrixTaskEntry ext t tr plr none
        (some (createMatrixInstanceLabel t tr plr i)) none) 0
        (taskRunsForName trs t.name)).length =
      (taskRunsForName trs t.name).length ∧
    (∀ e ∈ mapWithIndex (fun i tr => createMatrixTaskEntry ext t tr plr none
        (some (createMatrixInstanceLabel t tr plr i)) none) 0
        (taskRunsForName trs t.name),
      e.originalName = some t.name ∧ e.isMatrix = some true ∧
        ∃ src, e.name = t.name ++ "-" ++ sanitizeNameSuffix src) ∧
    ((mapWithIndex (fun i tr => (matrixEntryDisplayPair (childRefDisplayNameOf tr plr)
          none (some (createMatrixInstanceLabel t tr plr i))).2) 0
          (taskRunsForName trs t.name)).Nodup →
      ((mapWithIndex (fun i tr => createMatrixTaskEntry ext t tr plr none
          (some (createMatrixInstanceLabel t tr plr i)) none) 0
          (taskRunsForName trs t.name)).map (fun e => e.name)).Nodup) := by
  refine ⟨?_, mapWithIndex_length _ _ _, ?_, ?_⟩
  · have hdecomp : appendStatus ext (some p) (some plr) (some trs) false =
        (pre ++ t :: post).flatMap
          (appendStatusForTask ext (some plr) (some trs)
            (ext.pipelineRunStatus (some plr)) (detectMatrixTasks trs)
            (groupRunsBy resolveRunTaskName trs)) := by
      show ((p.spec.tasks).getD []).flatMap _ = _
      rw [htasks]
      rfl
    rw [hdecomp, List.flatMap_append, List.flatMap_cons,
      appendStatusForTask_matrix ext plr st trs (detectMatrixTasks trs) t hst hk]
    exact (List.append_assoc _ _ _).symm
  · intro e he
    obtain ⟨i, tr, htr, rfl⟩ := mapWithIndex_mem he
    obtain ⟨h1, h2, h3⟩ := createMatrixTaskEntry_fields ext t tr plr none
      (some (createMatrixInstanceLabel t tr plr i)) none
    refine ⟨h1, h2, ?_⟩
    obtain ⟨src, hsrc⟩ := matrixEntryDisplayPair_snd_sanitized
      (childRefDisplayNameOf tr plr) none (some (createMatrixInstanceLabel t tr plr i))
    exact ⟨src, by rw [h3, hsrc]⟩
  · intro hnd
    rw [mapWithIndex_map]
    have hswap :
        mapWithIndex (fun i tr =>
          (createMatrixTaskEntry ext t tr plr none
            (some (createMatrixInstanceLabel t tr plr i)) none).name) 0
          (taskRunsForName trs t.name) =
        (mapWithIndex (fun i tr => (matrixEntryDisplayPair (childRefDisplayNameOf tr plr)
            none (some (createMatrixInstanceLabel t tr plr i))).2) 0
            (taskRunsForName trs t.name)).map
          (fun sfx => t.name ++ "-" ++ sfx) := by
      rw [mapWithIndex_map]
      rfl
    rw [hswap]
    refine List.Nodup.map ?_ hnd
    intro a b hab
    have hd := congrArg String.data hab
    simp only [String.data_append] at hd
    have hd2 := List.append_cancel_left hd
    cases a with
    | mk da =>
      cases b with
      | mk db =>
        have hdd : da = db := by simpa using hd2
        rw [hdd]


theorem labelCount_le_resolveCount (trs : List TaskRun) (name : String) :
    (trs.filter (fun tr => detectRunTaskName tr = some name)).length ≤
      (taskRunsForName trs name).length := by
  unfold taskRunsForName
  rw [← List.countP_eq_length_filter, ← List.countP_eq_length_filter]
  apply List.countP_mono_left
  intro tr _ h
  have hd : detectRunTaskName tr = some name := of_decide_eq_true h
  exact decide_eq_true (detectRunTaskName_imp_resolve hd)

/-- The lookup shape of `detectMatrixTasks`. -/
theorem detectMatrixTasks_lookup (trs : List TaskRun) (name : String) :
    assocLookup (detectMatrixTasks trs) name =
      if trs.isEmpty then none
      else
        (assocLookup (groupRunsBy detectRunTaskName trs) name).map (fun lst =>
          { taskName := name,
            matrixParameters :=
              match lst.head? with
              | some tr => detectMatrixParametersFromTaskRun tr
              | none => [],
            isMatrix := decide (lst.length > 1) ||
              lst.any (fun tr => !(detectMatrixParametersFromTaskRun tr).isEmpty),
            instanceCount := lst.length }) := by
  unfold detectMatrixTasks
  by_cases he : trs.isEmpty
  · simp [he, assocLookup]
  · rw [if_neg he, if_neg he]
    exact assocLookup_map
      (fun nm (lst : List TaskRun) =>
        ({ taskName := nm,
           matrixParameters :=
             match lst.head? with
             | some tr => detectMatrixParametersFromTaskRun tr
             | none => [],
           isMatrix := decide (lst.length > 1) ||
             lst.any (fun tr => !(detectMatrixParametersFromTaskRun tr).isEmpty),
           instanceCount := lst.length } : MatrixTaskInfo)) _ _

/-- With at most one grouped record per name and no matrix-like annotations,
the matrix detector reports `isMatrix = false` (or no entry at all). -/
theorem detectMatrixTasks_isMatrix_false (trs : List TaskRun) (name : String)
    (hone : (taskRunsForName trs name).length ≤ 1)
    (hnp : ∀ tr ∈ trs, detectMatrixParametersFromTaskRun tr = []) :
    ((assocLookup (detectMatrixTasks trs) name).map (fun i => i.isMatrix)).getD false =
      false := by
  rw [detectMatrixTasks_lookup]
  by_cases he : trs.isEmpty
  · simp [he]
  · rw [if_neg he]
    cases hlk : assocLookup (groupRunsBy detectRunTaskName trs) name with
    | none => rfl
    | some lst =>
      have hlst : lst = trs.filter (fun tr => detectRunTaskName tr = some name) := by
        have := groupRunsBy_lookupD detectRunTaskName trs name
        rw [hlk] at this
        simpa using this
      have hlen : lst.length ≤ 1 := by
        rw [hlst]
        exact le_trans (labelCount_le_resolveCount trs name) hone
      have hd : decide (lst.length > 1) = false := by
        simp
        omega
      have hany : lst.any (fun tr => !(detectMatrixParametersFromTaskRun tr).isEmpty) =
          false := by
        rw [List.any_eq_false]
        intro tr htr
        have htrs : tr ∈ trs := by
          rw [hlst] at htr
          exact (List.mem_filter.mp htr).1
        simp [hnp tr htrs]
      simp [hd, hany]

/-- Branch lemma: with a run status present, exactly one grouped record for
the task, and no matrix-like annotations anywhere, the loop body takes the
regular single-entry branch. -/
theorem appendStatusForTask_regular (ext : Ext) (plr : PipelineRun) (st : PLRStatus)
    (trs : List TaskRun) (t : PipelineTask)
    (hst : plr.status = some st)
    (h1 : (taskRunsForName trs t.name).length = 1)
    (hnp : ∀ tr ∈ trs, detectMatrixParametersFromTaskRun tr = []) :
    appendStatusForTask ext (some plr) (some trs) (ext.pipelineRunStatus (some plr))
        (detectMatrixTasks trs) (groupRunsBy resolveRunTaskName trs) t =
      [createTaskWithStatus ext t (taskRunsForName trs t.name).head?] := by
  have hgrp : (assocLookup (groupRunsBy resolveRunTaskName trs) t.name).getD [] =
      taskRunsForName trs t.name := groupRunsBy_lookupD _ _ _
  have hne : trs.isEmpty = false := @trs_ne_nil_of_group trs t.name (by omega)
  have hnonempty : (taskRunsForName trs t.name).isEmpty = false :=
    isEmpty_false_of_length_pos (by omega)
  have hmul : decide ((taskRunsForName trs t.name).length > 1) = false := by
    simp
    omega
  have hm := detectMatrixTasks_isMatrix_false trs t.name (by omega) hnp
  simp only [appendStatusForTask, hst, hne, Bool.false_eq_true, if_false, hgrp,
    hnonempty, hm, hmul, Bool.or_false, if_false]


/-- C3 (counterexample): a single run record carrying a matrix-like annotation
(`SCAN_TYPE`) is still expanded — renamed with a suffix and tagged with matrix
metadata — because `appendStatus` also consults the annotation heuristic of
`detectMatrixTasks`, so the claim fails for one-record-per-task inputs. -/
theorem c3_single_instance_cex :
    (appendStatus ext0 (some pipeScan) (some plrEmptyStatus) (some [trScan]) false).map
        (fun e => (e.name, e.isMatrix, e.originalName)) =
      [("security-scan-Instance-1", some true, some "security-scan")] ∧
    "security-scan-Instance-1" ≠ "security-scan" := by
  constructor
  · decide
  · decide

/-- C3 (amended): for record sets with exactly one grouped record per declared
task *and no record whose annotations trigger the matrix-parameter heuristic*,
the builder's output has one entry per declared task, keeps every task's
unmodified name, and carries no matrix metadata.  Without the added heuristic
condition the claim fails (see the counterexample). -/
theorem c3_single_instance_amended (ext : Ext) (p : Pipeline) (plr : PipelineRun)
    (st : PLRStatus) (trs : List TaskRun)
    (hst : plr.status = some st)
    (hone : ∀ t ∈ p.spec.tasks.getD [], (taskRunsForName trs t.name).length = 1)
    (hnp : ∀ tr ∈ trs, detectMatrixParametersFromTaskRun tr = []) :
    (appendStatus ext (some p) (some plr) (some trs) false).map (fun e => e.name) =
      (p.spec.tasks.getD []).map (fun t => t.name) ∧
    (appendStatus ext (some p) (some plr) (some trs) false).length =
      (p.spec.tasks.getD []).length ∧
    ∀ e ∈ appendStatus ext (some p) (some plr) (some trs) false,
      e.isMatrix = none ∧ e.originalName = none ∧ e.matrixDisplayName = none := by
  have haux : ∀ ts : List PipelineTask,
      (∀ t ∈ ts, (taskRunsForName trs t.name).length = 1) →
      ts.flatMap (appendStatusForTask ext (some plr) (some trs)
        (ext.pipelineRunStatus (some plr)) (detectMatrixTasks trs)
        (groupRunsBy resolveRunTaskName trs)) =
      ts.map (fun t => createTaskWithStatus ext t (taskRunsForName trs t.name).head?) := by
    intro ts
    induction ts with
    | nil => intro _; rfl
    | cons t rest ih =>
      intro hts
      rw [List.flatMap_cons,
        appendStatusForTask_regular ext plr st trs t hst
          (hts t (List.mem_cons_self t rest)) hnp,
        List.map_cons, ih (fun t' ht' => hts t' (List.mem_cons_of_mem _ ht'))]
      rfl
  have hform : appendStatus ext (some p) (some plr) (some trs) false =
      (p.spec.tasks.getD []).map
        (fun t => createTaskWithStatus ext t (taskRunsForName trs t.name).head?) := by
    show ((p.spec.tasks).getD []).flatMap _ = _
    exact haux _ hone
  refine ⟨?_, ?_, ?_⟩
  · rw [hform, List.map_map]
    apply List.map_congr_left
    intro t _
    exact createTaskWithStatus_name ext t _
  · rw [hform, List.length_map]
  · intro e he
    rw [hform] at he
    obtain ⟨t, _, rfl⟩ := List.mem_map.mp he
    exact createTaskWithStatus_no_matrix ext t _

/-- C3 (witness): the amended claim applied to one plain `build` record. -/
theorem c3_single_instance_witness :
    (appendStatus ext0 (some pipeBuild) (some plrEmptyStatus) (some [trBuild0]) false).map
        (fun e => e.name) = (pipeBuild.spec.tasks.getD []).map (fun t => t.name) :=
  (c3_single_instance_amended ext0 pipeBuild plrEmptyStatus {} [trBuild0] rfl
    (by decide) (by decide)).1

/-- C5 (counterexample): with a pipeline-run that has no status, the emitted
placeholder's reason is `Pending`, not the claimed `Idle`. -/
theorem c5_no_status_cex :
    (appendStatus ext0 (some pipeBuild) (some ({ } : PipelineRun)) (some [trBuild0])
        false).map (fun e => e.status.reason) = [some RunStatus.pending] ∧
    some RunStatus.pending ≠ some RunStatus.idle := by
  constructor
  · decide
  · decide

/-- C5 (amended): for every non-null pipeline whose pipeline-run carries no run
status, `appendStatus` emits exactly one placeholder per declared task whose
status reason is `Pending` (the claim said `Idle`; `Idle` is what the
no-run-record placeholder uses, not this branch). -/
theorem c5_no_status_amended (ext : Ext) (p : Pipeline) (plr : PipelineRun)
    (taskRuns : Option (List TaskRun))
    (hst : plr.status = none) :
    appendStatus ext (some p) (some plr) taskRuns false =
      (p.spec.tasks.getD []).map
        (fun t => mkStatusOnlyTask t (some RunStatus.pending)) := by
  show ((p.spec.tasks).getD []).flatMap _ = _
  have hF : appendStatusForTask ext (some plr) taskRuns
      (ext.pipelineRunStatus (some plr)) (detectMatrixTasks (taskRuns.getD []))
      (groupRunsBy resolveRunTaskName (taskRuns.getD [])) =
      fun t => [mkStatusOnlyTask t (some RunStatus.pending)] := by
    funext t
    simp only [appendStatusForTask, hst]
  rw [hF, list_flatMap_singleton]

/-- C5 (witness): the amended claim applied to a concrete status-less run. -/
theorem c5_no_status_witness :
    appendStatus ext0 (some pipeBuild) (some ({ } : PipelineRun)) (some [trBuild0])
        false =
      (pipeBuild.spec.tasks.getD []).map
        (fun t => mkStatusOnlyTask t (some RunStatus.pending)) :=
  c5_no_status_amended ext0 pipeBuild { } (some [trBuild0]) rfl

/-- C6 (counterexample): `createMatrixInstanceLabel` can return the empty
string — a single declared matrix parameter whose value at the instance's
position is the empty string is returned as the label verbatim. -/
theorem c6_instance_label_cex :
    createMatrixInstanceLabel taskEmptyMatrixValue { } { } 0 = "" := by
  decide

/-- C6 (amended): `createMatrixInstanceLabel` is total, and for every task
definition that declares no matrix parameters it returns a non-empty string;
with declared matrix parameters the label is built from parameter values and
can be empty (see the counterexample). -/
theorem c6_instance_label_amended (task : PipelineTask) (taskRun : TaskRun)
    (pipelineRun : PipelineRun) (index : Nat)
    (hmx : (task.matrix.bind (fun m => m.params)).getD [] = []) :
    createMatrixInstanceLabel task taskRun pipelineRun index ≠ "" := by
  have hInst : ∀ x : String, ("Instance " ++ x) ≠ "" := by
    intro x he
    have hlen := congrArg String.length he
    rw [String.length_append] at hlen
    have h9 : ("Instance " : String).length = 9 := by decide
    have h0 : ("" : String).length = 0 := by decide
    rw [h9, h0] at hlen
    omega
  by_cases hc : strTruthy (childRefDisplayNameOf taskRun pipelineRun) = true
  · cases hcr : childRefDisplayNameOf taskRun pipelineRun with
    | none => rw [hcr] at hc; exact absurd hc (by decide)
    | some sv =>
      rw [hcr] at hc
      have hsv : ¬ sv = "" := by
        intro he
        subst he
        exact absurd hc (by decide)
      simp [createMatrixInstanceLabel, hcr, hc, hsv]
  · have hgoal : createMatrixInstanceLabel task taskRun pipelineRun index =
        "Instance " ++ toString (index + 1) := by
      simp only [createMatrixInstanceLabel]
      rw [if_neg hc]
      cases hm : task.matrix.bind (fun m => m.params) with
      | none => rfl
      | some mparams =>
        have hmp : mparams = [] := by
          rw [hm] at hmx
          simpa using hmx
        subst hmp
        simp
    rw [hgoal]
    exact hInst _

/-- C6 (witness): the amended claim applied to a task without matrix
parameters. -/
theorem c6_instance_label_witness :
    createMatrixInstanceLabel { name := "t" } { } { } 0 ≠ "" :=
  c6_instance_label_amended { name := "t" } { } { } 0 rfl

theorem getDisplayNameFromChildReferences_without (plr : PipelineRun) (nm : String) :
    getDisplayNameFromChildReferences (withoutChildReferences plr) nm = none := by
  unfold getDisplayNameFromChildReferences withoutChildReferences
  cases plr.status <;> simp

/-- C10 (confirmed): a child-reference display name that is non-empty but
sanitizes to the empty string behaves exactly as if the child reference were
absent: both the instance labeler and the matrix entry builder fall through to
their matrix/positional (resp. provided display-name / value / `unknown`)
sources, and the empty sanitized value is never used as a label or suffix. -/
theorem c10_empty_sanitized_childref (ext : Ext) (task : PipelineTask)
    (taskRun : TaskRun) (pipelineRun : PipelineRun) (index : Nat)
    (mp mv md : Option String) (nm : String)
    (hname : taskRun.metadata.bind (fun m => m.name) = some nm)
    (hnm : nm ≠ "")
    (hcr : getDisplayNameFromChildReferences pipelineRun nm = some "") :
    createMatrixInstanceLabel task taskRun pipelineRun index =
      createMatrixInstanceLabel task taskRun (withoutChildReferences pipelineRun) index ∧
    createMatrixTaskEntry ext task taskRun pipelineRun mp mv md =
      createMatrixTaskEntry ext task taskRun (withoutChildReferences pipelineRun) mp mv md ∧
    (createMatrixTaskEntry ext task taskRun pipelineRun mp mv md).name =
      task.name ++ "-" ++ (matrixEntryDisplayPair none md mv).2 ∧
    (createMatrixTaskEntry ext task taskRun pipelineRun mp mv md).matrixDisplayName =
      some (matrixEntryDisplayPair none md mv).1 := by
  have hie : nm.isEmpty = false := by
    cases hq : nm.isEmpty
    · rfl
    · exact absurd ((String.isEmpty_iff nm).mp hq) hnm
  have hcro : childRefDisplayNameOf taskRun pipelineRun = some "" := by
    unfold childRefDisplayNameOf
    rw [hname]
    show (if nm.isEmpty = true then none
      else getDisplayNameFromChildReferences pipelineRun nm) = some ""
    rw [hie]
    simpa using hcr
  have hcrn : childRefDisplayNameOf taskRun (withoutChildReferences pipelineRun) = none := by
    unfold childRefDisplayNameOf
    rw [hname]
    show (if nm.isEmpty = true then none
      else getDisplayNameFromChildReferences (withoutChildReferences pipelineRun) nm) = none
    rw [hie]
    simpa using getDisplayNameFromChildReferences_without pipelineRun nm
  have hpair : ∀ b c : Option String,
      matrixEntryDisplayPair (some "") b c = matrixEntryDisplayPair none b c :=
    fun b c => rfl
  refine ⟨?_, ?_, ?_, ?_⟩
  · simp only [createMatrixInstanceLabel, hcro, hcrn]
    rfl
  · simp only [createMatrixTaskEntry, hcro, hcrn, hpair]
  · simp only [createMatrixTaskEntry, hcro, hpair]
  · simp only [createMatrixTaskEntry, hcro, hpair]

/-- C10 (witness): the fall-through applied to a display name consisting only
of an HTML tag. -/
theorem c10_empty_sanitized_witness :
    createMatrixInstanceLabel { name := "t" } trTagged plrTagged 0 =
      createMatrixInstanceLabel { name := "t" } trTagged
        (withoutChildReferences plrTagged) 0 :=
  (c10_empty_sanitized_childref ext0 { name := "t" } trTagged plrTagged 0
    none none none "x-0" rfl (by decide) (by decide)).1


/-- C2 (witness): the amended expansion applied to the two `build` records. -/
theorem c2_matrix_expansion_witness :
    (mapWithIndex (fun i tr => createMatrixTaskEntry ext0 { name := "build" } tr
        plrSameNames none
        (some (createMatrixInstanceLabel { name := "build" } tr plrSameNames i)) none) 0
        (taskRunsForName [trBuild0, trBuild1] "build")).length =
      (taskRunsForName [trBuild0, trBuild1] "build").length :=
  (c2_matrix_expansion_amended ext0 pipeBuild plrSameNames
    { childReferences := some
        [{ name := "build-0", displayName := some "same" },
         { name := "build-1", displayName := some "same" }] }
    [trBuild0, trBuild1] { name := "build" } [] [] rfl rfl (by decide)).2.1

theorem foldLevels_congr {f g : GraphNode → Option Nat}
    (hfg : ∀ (c : GraphNode) (v : Nat), f c = some v → g c = some v) :
    ∀ (l : List GraphNode) (acc m : Nat),
      foldLevels f l acc = some m → foldLevels g l acc = some m := by
  intro l
  induction l with
  | nil => intro acc m h; simpa [foldLevels] using h
  | cons c rest ih =>
    intro acc m h
    rw [foldLevels] at h ⊢
    cases hc : f c with
    | none => rw [hc] at h; exact absurd h (by simp)
    | some l0 =>
      rw [hc] at h
      rw [hfg c l0 hc]
      exact ih _ _ h

theorem getNodeLevel_mono : ∀ (fuel : Nat) (node : GraphNode)
    (allNodes : List GraphNode) (v : Nat),
    getNodeLevel fuel node allNodes = some v →
    getNodeLevel (fuel + 1) node allNodes = some v := by
  intro fuel
  induction fuel with
  | zero => intro node allNodes v h; simp [getNodeLevel] at h
  | succ fuel ih =>
    intro node allNodes v h
    rw [getNodeLevel] at h ⊢
    by_cases hch : (allNodes.filter (fun n => n.runAfterTasks.contains node.id)).isEmpty
    · rw [if_pos hch] at h ⊢
      exact h
    · rw [if_neg hch] at h ⊢
      cases hf : foldLevels (fun c => getNodeLevel fuel c allNodes)
          (allNodes.filter (fun n => n.runAfterTasks.contains node.id)) 0 with
      | none => rw [hf] at h; exact absurd h (by simp)
      | some m =>
        rw [hf] at h
        rw [foldLevels_congr (fun c v hc => ih c allNodes v hc) _ _ _ hf]
        exact h

theorem foldLevels_ge_acc {f : GraphNode → Option Nat} :
    ∀ (l : List GraphNode) (acc m : Nat), foldLevels f l acc = some m → acc ≤ m := by
  intro l
  induction l with
  | nil =>
    intro acc m h
    simp [foldLevels] at h
    omega
  | cons c rest ih =>
    intro acc m h
    rw [foldLevels] at h
    cases hc : f c with
    | none => rw [hc] at h; exact absurd h (by simp)
    | some l0 =>
      rw [hc] at h
      have := ih _ _ h
      omega

theorem foldLevels_mem_le {f : GraphNode → Option Nat} :
    ∀ (l : List GraphNode) (acc m : Nat) (c : GraphNode), c ∈ l →
      foldLevels f l acc = some m → ∃ w, f c = some w ∧ w ≤ m := by
  intro l
  induction l with
  | nil => intro acc m c hc; simp at hc
  | cons x rest ih =>
    intro acc m c hc h
    rw [foldLevels] at h
    cases hx : f x with
    | none => rw [hx] at h; exact absurd h (by simp)
    | some l0 =>
      rw [hx] at h
      rcases List.mem_cons.mp hc with rfl | hmem
      · have hle := foldLevels_ge_acc rest _ _ h
        exact ⟨l0, hx, by omega⟩
      · exact ih _ _ c hmem h

/-- C7 (counterexample): the Graph Model Builder's levels grow toward
dependencies: in the two-task pipeline where `b` runs after `a`, the builder
assigns level 0 to the dependent `b` and level 1 to its dependency `a`, so the
claimed `level(child) > level(parent)` — here `0 > 1` — fails. -/
theorem c7_levels_cex :
    ((getGraphDataModel ext0 (some pipeAB) (some plrEmptyStatus) (some [])).toOption.map
      (fun r => r.nodes.map (fun n => (n.id, n.runAfterTasks, n.data.level)))) =
      some [("a", [], some 1), ("b", ["a"], some 0)] ∧
    ¬ (0 : Nat) > 1 := by
  constructor
  · decide
  · decide

/-- C7 (amended): after level assignment, for every dependency edge where node
C lists node P among its `runAfterTasks`, `level(P) ≥ level(C) + 1` — levels
count distance from the sink end, so a dependency's level exceeds its
dependent's, the reverse of the claim's inequality; and every node on which no
other node declares a dependency has level 0. -/
theorem c7_levels_amended (allNodes : List GraphNode) (fuel : Nat) :
    (∀ (cNode pNode : GraphNode) (lc lp : Nat), cNode ∈ allNodes →
      pNode.id ∈ cNode.runAfterTasks →
      getNodeLevel fuel cNode allNodes = some lc →
      getNodeLevel fuel pNode allNodes = some lp →
      lc + 1 ≤ lp) ∧
    (∀ node : GraphNode, (∀ m ∈ allNodes, node.id ∉ m.runAfterTasks) → 1 ≤ fuel →
      getNodeLevel fuel node allNodes = some 0) := by
  constructor
  · intro cNode pNode lc lp hmem hdep hlc hlp
    cases fuel with
    | zero => simp [getNodeLevel] at hlp
    | succ fuel =>
      rw [getNodeLevel] at hlp
      have hchild : cNode ∈ allNodes.filter (fun n => n.runAfterTasks.contains pNode.id) := by
        rw [List.mem_filter]
        exact ⟨hmem, by simpa using hdep⟩
      have hne : (allNodes.filter (fun n => n.runAfterTasks.contains pNode.id)).isEmpty
          = false := by
        cases hq : allNodes.filter (fun n => n.runAfterTasks.contains pNode.id) with
        | nil => rw [hq] at hchild; simp at hchild
        | cons x rest => rfl
      rw [if_neg (show ¬ (List.filter (fun n => n.runAfterTasks.contains pNode.id)
          allNodes).isEmpty = true by
        rw [hne]; exact Bool.false_ne_true)] at hlp
      cases hf : foldLevels (fun c => getNodeLevel fuel c allNodes)
          (allNodes.filter (fun n => n.runAfterTasks.contains pNode.id)) 0 with
      | none => rw [hf] at hlp; exact absurd hlp (by simp)
      | some m =>
        rw [hf] at hlp
        obtain ⟨w, hw, hwle⟩ := foldLevels_mem_le _ 0 m cNode hchild hf
        have hmono := getNodeLevel_mono fuel cNode allNodes w hw
        rw [hlc] at hmono
        have hlcw : lc = w := Option.some.inj hmono
        have hlpm : lp = m + 1 := (Option.some.inj hlp).symm
        omega
  · intro node hnone hfuel
    cases fuel with
    | zero => omega
    | succ fuel =>
      rw [getNodeLevel]
      have hempty : allNodes.filter (fun n => n.runAfterTasks.contains node.id) = [] := by
        rw [List.filter_eq_nil]
        intro m hm
        simpa using hnone m hm
      rw [hempty]
      rfl

/-- C7 (witness): the amended inequality at the two concrete nodes. -/
theorem c7_levels_witness : (0 : Nat) + 1 ≤ 1 :=
  (c7_levels_amended [nodeA, nodeB] 3).1 nodeB nodeA 0 1 (by decide) (by decide)
    (by decide) (by decide)


/-- C4 (code bug): `appendStatus` degrades gracefully on a record without a
resolvable task-name label and on a missing task-run list, but
`getGraphDataModel` then throws: its node builder reads
`tr.metadata.labels[...]` and calls `taskRuns.find` without the guards the
rest of the code applies, raising a `TypeError` on both documented input
shapes. -/
theorem c4_no_throw_bug :
    (appendStatus ext0 (some pipeScan) (some plrEmptyStatus) (some [trNoLabels])
        false).length = 1 ∧
    getGraphDataModel ext0 (some pipeScan) (some plrEmptyStatus) (some [trNoLabels]) =
      Except.error errLabelsUndefined ∧
    getGraphDataModel ext0 (some pipeScan) (some plrEmptyStatus) none =
      Except.error errTaskRunsUndefined := by
  refine ⟨by decide, by rfl, by rfl⟩


theorem except_bind_ok {ε α β : Type} {x : Except ε α} {f : α → Except ε β} {b : β}
    (h : x >>= f = .ok b) : ∃ a, x = .ok a ∧ f a = .ok b := by
  cases x with
  | error e =>
    simp only [Bind.bind, Except.bind] at h
    exact absurd h (by simp)
  | ok a =>
    simp only [Bind.bind, Except.bind] at h
    exact ⟨a, rfl, h⟩

theorem except_mapM_mem {ε α β : Type} {f : α → Except ε β} :
    ∀ {l : List α} {l' : List β}, l.mapM f = .ok l' →
      ∀ b ∈ l', ∃ a ∈ l, f a = .ok b := by
  intro l
  induction l with
  | nil =>
    intro l' h b hb
    simp only [List.mapM_nil] at h
    have : l' = [] := by
      simpa [pure, Except.pure] using h.symm
    subst this
    simp at hb
  | cons a rest ih =>
    intro l' h b hb
    rw [List.mapM_cons] at h
    obtain ⟨b0, hb0, h2⟩ := except_bind_ok h
    obtain ⟨bs, hbs, h3⟩ := except_bind_ok h2
    have hl' : l' = b0 :: bs := by
      simpa [pure, Except.pure] using h3.symm
    subst hl'
    rcases List.mem_cons.mp hb with rfl | hmem
    · exact ⟨a, List.mem_cons_self a rest, hb0⟩
    · obtain ⟨a0, ha0, hf⟩ := ih hbs b hmem
      exact ⟨a0, List.mem_cons_of_mem a ha0, hf⟩

/-- The data payload carried through the post-build passes. -/
def sameData (m n : GraphNode) : Prop :=
  m.data.taskRun = n.data.taskRun ∧ m.data.task = n.data.task

theorem sameData_refl (n : GraphNode) : sameData n n := ⟨rfl, rfl⟩

theorem mem_pruneNodes_sameData {ns ns' : List GraphNode}
    (h : pruneNodes ns = .ok ns') :
    ∀ n' ∈ ns', ∃ n ∈ ns, sameData n' n := by
  unfold pruneNodes at h
  have hgen : ∀ (idxs : List Nat) (st st' : List GraphNode),
      idxs.foldlM pruneNodesStep st = .ok st' →
      (∀ m ∈ st, ∃ n ∈ ns, sameData m n) →
      ∀ m ∈ st', ∃ n ∈ ns, sameData m n := by
    intro idxs
    induction idxs with
    | nil =>
      intro st st' h hinv
      simp only [List.foldlM_nil] at h
      have : st' = st := by simpa [pure, Except.pure] using h.symm
      subst this
      exact hinv
    | cons i rest ih =>
      intro st st' h hinv
      rw [List.foldlM_cons] at h
      obtain ⟨st1, hst1, h2⟩ := except_bind_ok h
      refine ih st1 st' h2 ?_
      unfold pruneNodesStep at hst1
      cases hget : st.get? i with
      | none =>
        rw [hget] at hst1
        have : st1 = st := by simpa using hst1.symm
        subst this
        exact hinv
      | some n =>
        rw [hget] at hst1
        obtain ⟨deps, _, hok⟩ := except_bind_ok hst1
        have hset : st1 = st.set i { n with runAfterTasks := deps } := by
          simpa using hok.symm
        subst hset
        intro m hm
        rcases List.mem_or_eq_of_mem_set hm with hmem | rfl
        · exact hinv m hmem
        · have hn : n ∈ st := List.get?_mem hget
          obtain ⟨n0, hn0, hd⟩ := hinv n hn
          exact ⟨n0, hn0, hd⟩
  exact hgen (List.range ns.length) ns ns' h (fun m hm => ⟨m, hm, sameData_refl m⟩)

theorem mem_maxWidthPerLevel_sameData {ns : List GraphNode} :
    ∀ n' ∈ maxWidthPerLevel ns, ∃ n ∈ ns, sameData n' n := by
  unfold maxWidthPerLevel
  have hgen : ∀ (idxs : List Nat) (st : List GraphNode),
      (∀ m ∈ st, ∃ n ∈ ns, sameData m n) →
      ∀ m ∈ idxs.foldl maxWidthStep st, ∃ n ∈ ns, sameData m n := by
    intro idxs
    induction idxs with
    | nil => intro st hinv m hm; exact hinv m hm
    | cons i rest ih =>
      intro st hinv
      rw [List.foldl_cons]
      refine ih _ ?_
      unfold maxWidthStep
      cases hget : st.get? i with
      | none => exact hinv
      | some n =>
        intro m hm
        rcases List.mem_or_eq_of_mem_set hm with hmem | rfl
        · exact hinv m hmem
        · have hn : n ∈ st := List.get?_mem hget
          obtain ⟨n0, hn0, hd⟩ := hinv n hn
          exact ⟨n0, hn0, hd⟩
  exact hgen _ ns (fun m hm => ⟨m, hm, sameData_refl m⟩)

theorem findTaskRunByLabelM_ok :
    ∀ {trs : List TaskRun} {target : String} {r : Option TaskRun},
      findTaskRunByLabelM trs target = .ok r →
      r = trs.find? (fun tr => taskRunLabelName tr = some target) := by
  intro trs
  induction trs with
  | nil =>
    intro target r h
    simpa [findTaskRunByLabelM] using h.symm
  | cons tr rest ih =>
    intro target r h
    rw [findTaskRunByLabelM] at h
    cases hmd : tr.metadata with
    | none =>
      rw [hmd] at h
      simp [jsGet, Bind.bind, Except.bind] at h
    | some md =>
      rw [hmd] at h
      simp only [jsGet, Bind.bind, Except.bind] at h
      cases hlb : md.labels with
      | none =>
        rw [hlb] at h
        simp [jsGet, Bind.bind, Except.bind] at h
      | some lbls =>
        rw [hlb] at h
        simp only [jsGet] at h
        by_cases heq : assocLookup lbls pipelineTaskLabel = some target
        · rw [if_pos heq] at h
          have hr : r = some tr := by simpa [pure, Except.pure] using h.symm
          subst hr
          have hlab : taskRunLabelName tr = some target := by
            simp [taskRunLabelName, hmd, hlb, heq]
          simp [List.find?, hlab]
        · rw [if_neg heq] at h
          rw [List.find?_cons_of_neg _ (by
            simp only [taskRunLabelName, hmd, hlb, Option.some_bind, decide_eq_true_eq]
            exact heq)]
          exact ih h

theorem sameData_trans {a b c : GraphNode} (h1 : sameData a b) (h2 : sameData b c) :
    sameData a c := ⟨h1.1.trans h2.1, h1.2.trans h2.2⟩

theorem mem_assignLevelsAndWidths_sameData {e : Ext} {ns ns' : List GraphNode}
    (h : assignLevelsAndWidths e ns = .ok ns') :
    ∀ n' ∈ ns', ∃ n ∈ ns, sameData n' n := by
  unfold assignLevelsAndWidths at h
  intro n' hn'
  obtain ⟨n, hn, hf⟩ := except_mapM_mem h n' hn'
  refine ⟨n, hn, ?_⟩
  cases hg : getNodeLevel (ns.length + 1) n ns with
  | none => rw [hg] at hf; exact absurd hf (by simp)
  | some lv =>
    rw [hg] at hf
    have : n' = { n with
        data := { n.data with level := some lv },
        width := some (e.getLabelWidth n.label + getBadgeWidth e n.data) } := by
      simpa using hf.symm
    subst this
    exact ⟨rfl, rfl⟩

theorem buildTaskNode_ok_task {e : Ext} {plr : Option PipelineRun}
    {trs : List TaskRun} {tl : List PipelineTaskWithStatus}
    {task : PipelineTaskWithStatus} {n : GraphNode}
    (h : buildTaskNode e plr (some trs) tl task = .ok n) :
    n.data.task = task := by
  unfold buildTaskNode at h
  by_cases hc : (task.isMatrix.getD false && strTruthy task.originalName) = true
  · rw [if_pos hc] at h
    simp only [Bind.bind] at h
    obtain ⟨trf, htrf, h2⟩ := except_bind_ok h
    obtain ⟨plrv, hplrv, h3⟩ := except_bind_ok h2
    simp only [pure, Except.pure, Except.ok.injEq] at h3
    rw [← h3]
  · rw [if_neg hc] at h
    simp only [Bind.bind] at h
    obtain ⟨trf, htrf, h2⟩ := except_bind_ok h
    obtain ⟨plrv, hplrv, h3⟩ := except_bind_ok h2
    simp only [pure, Except.pure, Except.ok.injEq] at h3
    rw [← h3]

theorem buildTaskNode_ok_matrix {e : Ext} {plr : Option PipelineRun}
    {trs : List TaskRun} {tl : List PipelineTaskWithStatus}
    {task : PipelineTaskWithStatus} {n : GraphNode}
    (h : buildTaskNode e plr (some trs) tl task = .ok n)
    (hc : (task.isMatrix.getD false && strTruthy task.originalName) = true) :
    n.data.taskRun = trs.find? (fun tr =>
      taskRunLabelName tr = some (task.originalName.getD (String.mk []))) := by
  unfold buildTaskNode at h
  rw [if_pos hc] at h
  simp only [Bind.bind] at h
  obtain ⟨trf, htrf, h2⟩ := except_bind_ok h
  obtain ⟨plrv, hplrv, h3⟩ := except_bind_ok h2
  unfold jsFindTaskRunByLabel at htrf
  simp only [jsGet, Bind.bind, Except.bind] at htrf
  have hfind := findTaskRunByLabelM_ok htrf
  simp only [pure, Except.pure, Except.ok.injEq] at h3
  rw [← h3]
  exact hfind

/-- C9: confirmed.  Whenever the graph builder succeeds, every expanded matrix
instance node (matrix flag set and a truthy original name) carries as its
`data.taskRun` the FIRST input record whose pipeline-task label equals the
instance's `originalName` — so all instance nodes of one matrix task share
that same first record instead of each carrying its own run record. -/
theorem c9_matrix_taskrun_first (e : Ext) (p : Option Pipeline)
    (plr : Option PipelineRun) (trs : List TaskRun) {res : GraphData}
    {node : GraphNode}
    (hok : getGraphDataModel e p plr (some trs) = .ok res)
    (hmem : node ∈ res.nodes)
    (hm : node.data.task.isMatrix.getD false = true)
    (ho : strTruthy node.data.task.originalName = true) :
    node.data.taskRun = trs.find? (fun tr =>
      taskRunLabelName tr = some (node.data.task.originalName.getD (String.mk []))) := by
  unfold getGraphDataModel at hok
  simp only [Bind.bind] at hok
  obtain ⟨nodes1, h1, hok⟩ := except_bind_ok hok
  obtain ⟨nodes2, h2, hok⟩ := except_bind_ok hok
  obtain ⟨nodes4, h4, hok⟩ := except_bind_ok hok
  obtain ⟨fns, h5, hok⟩ := except_bind_ok hok
  have hres : res = { nodes := maxWidthPerLevel nodes4, finallyNodes := fns } := by
    simpa [pure, Except.pure] using hok.symm
  rw [hres] at hmem
  obtain ⟨n4, hn4, hd54⟩ := mem_maxWidthPerLevel_sameData node hmem
  obtain ⟨n3, hn3, hd43⟩ := mem_assignLevelsAndWidths_sameData h4 n4 hn4
  obtain ⟨n2, hn2, hg32⟩ := List.mem_map.mp hn3
  have hd32 : sameData n3 n2 := by rw [← hg32]; exact ⟨rfl, rfl⟩
  obtain ⟨n1, hn1, hd21⟩ := mem_pruneNodes_sameData h2 n2 hn2
  obtain ⟨task, htask, hb⟩ := except_mapM_mem h1 n1 hn1
  have hdata : sameData node n1 :=
    sameData_trans (sameData_trans (sameData_trans hd54 hd43) hd32) hd21
  have hnode_task : node.data.task = task := hdata.2.trans (buildTaskNode_ok_task hb)
  rw [hnode_task] at hm ho
  have hrun := buildTaskNode_ok_matrix hb (by simp [hm, ho])
  rw [hnode_task, hdata.1]
  exact hrun

theorem c9_matrix_taskrun_first_witness :
    c9node.data.taskRun = [trBuild0, trBuild1].find? (fun tr =>
      taskRunLabelName tr = some (c9node.data.task.originalName.getD (String.mk []))) :=
  c9_matrix_taskrun_first ext0 (some pipeBuild) (some plrEmptyStatus)
    [trBuild0, trBuild1] (by rfl) (by decide) (by decide) (by decide)

theorem findByMetaNameM_ok_some :
    ∀ {trs : List TaskRun} {nm : String} {tr : TaskRun},
      findByMetaNameM trs nm = .ok (some tr) → metaNameOf tr = .ok (some nm) := by
  intro trs
  induction trs with
  | nil => intro nm tr h; simp [findByMetaNameM, pure, Except.pure] at h
  | cons tr0 rest ih =>
    intro nm tr h
    rw [findByMetaNameM] at h
    simp only [Bind.bind] at h
    obtain ⟨n, hn, h2⟩ := except_bind_ok h
    by_cases he : n = some nm
    · rw [if_pos he] at h2
      have h3 : some tr0 = some tr := by simpa [pure, Except.pure] using h2
      obtain rfl : tr0 = tr := Option.some.inj h3
      rw [hn, he]
    · rw [if_neg he] at h2
      exact ih h2

/-- C1 counterexample: the matrix-vs-regular decisions differ.  On a single
run record for `security-scan` carrying a matrix-style `SCAN_TYPE` annotation,
the graph builder's heuristic expands a matrix instance node labelled
`security-scan (Instance 1)`, while `getTaskDisplayInfo` — whose decision is
only `count > 1` — treats the task as regular and returns the bare
`security-scan`, so the two labels disagree. -/
theorem c1_display_consistency_cex :
    getTaskDisplayInfo { name := "security-scan" } trScan plrEmptyStatus [trScan] =
      .ok { taskName := "security-scan", additionalInfo := none,
            displayString := "security-scan" } ∧
    (getGraphDataModel ext0 (some pipeScan) (some plrEmptyStatus)
        (some [trScan])).toOption.map (fun g => g.nodes.map (fun n => n.label)) =
      some ["security-scan (Instance 1)"] ∧
    ("security-scan" : String) ≠ "security-scan (Instance 1)" := by
  refine ⟨by rfl, by rfl, by decide⟩

/-- C1: amended.  The consistency contract holds between `getTaskDisplayInfo`
and the logs task list (both decide matrix-vs-regular by run-record count > 1
and share `createMatrixInstanceLabel` and the child-reference display name):
whenever the logs row name resolves to the record `tr`, the record's label
names the task, and the run's pipeline spec resolves that name to the task
definition, the logs additional info equals `getTaskDisplayInfo`'s
`additionalInfo`, and the returned display string is the task name with the
truthy additional info in parentheses.  (The stronger claimed agreement with
the graph builder's appendStatus path fails — see the counterexample — because
the graph path also uses the annotation/parameter matrix heuristic.) -/
theorem c1_display_consistency_amended (task : PipelineTask) (tr : TaskRun)
    (plr : PipelineRun) (trs : List TaskRun) (nm : String)
    (h1 : findByMetaNameM trs nm = .ok (some tr))
    (h2 : taskRunLabelName tr = some task.name)
    (h3 : task.name ≠ "")
    (h4 : (((plr.status.bind fun st => st.pipelineSpec).bind fun ps => ps.tasks).bind
        fun tasks => tasks.find? fun t => t.name = task.name) = some task) :
    logsAdditionalInfo plr trs nm =
      (getTaskDisplayInfo task tr plr trs).map (fun i => i.additionalInfo) ∧
    ∀ info, getTaskDisplayInfo task tr plr trs = .ok info →
      info.taskName = task.name ∧
      info.displayString =
        (if strTruthy info.additionalInfo then
          task.name ++ " (" ++ info.additionalInfo.getD (String.mk []) ++ ")"
        else task.name) := by
  have hmn : metaNameOf tr = .ok (some nm) := findByMetaNameM_ok_some h1
  have hnem : task.name.isEmpty = false := by
    cases hh : task.name.isEmpty
    · rfl
    · exact absurd ((String.isEmpty_iff task.name).mp hh) h3
  have hst : strTruthy (some task.name) = true := by simp [strTruthy, hnem]
  constructor
  · unfold logsAdditionalInfo
    rw [h1]
    simp only [Bind.bind, Except.bind, Option.some_bind, h2, hst, if_true,
      Option.getD_some, h4]
    unfold getTaskDisplayInfo
    simp only [Bind.bind, Except.bind]
    by_cases hlen : (matrixTaskRunsFor trs task.name).length > 1
    · rw [if_pos hlen, if_pos (by simpa using hlen)]
      rw [hmn]
      simp only [Except.bind]
      cases hidx : findIndexByMetaName (matrixTaskRunsFor trs task.name) (some nm) 0 with
      | error e => simp [hidx, Except.map]
      | ok v =>
        cases v with
        | some i => simp [hidx, pure, Except.pure, Except.map]
        | none => simp [hidx, pure, Except.pure, Except.map]
    · rw [if_neg hlen, if_neg (by simpa using hlen)]
      cases hcr : plr.status.bind (fun st => st.childReferences) with
      | none => simp [pure, Except.pure, Except.map]
      | some refs =>
        cases hfr : findRefM refs tr with
        | error e => simp [hfr, Except.map]
        | ok v =>
          cases v with
          | none => simp [hfr, pure, Except.pure, Except.map]
          | some r =>
            by_cases hd : strTruthy r.displayName = true
            · simp [hfr, hd, pure, Except.pure, Except.map]
            · simp [hfr, hd, pure, Except.pure, Except.map]
  · intro info hinfo
    unfold getTaskDisplayInfo at hinfo
    simp only [Bind.bind, Except.bind, pure, Except.pure] at hinfo
    repeat' split at hinfo
    all_goals first
      | exact Except.noConfusion hinfo
      | (simp only [Except.ok.injEq] at hinfo
         rw [← hinfo]
         exact ⟨rfl, rfl⟩)
      | (simp only [Except.ok.injEq] at hinfo
         rw [← hinfo]
         refine ⟨rfl, ?_⟩
         simp_all)

theorem c1_display_consistency_witness :
    logsAdditionalInfo plrWithBuildSpec [trBuild0, trBuild1] "build-0" =
      (getTaskDisplayInfo { name := "build" } trBuild0 plrWithBuildSpec
          [trBuild0, trBuild1]).map (fun i => i.additionalInfo) :=
  (c1_display_consistency_amended { name := "build" } trBuild0 plrWithBuildSpec
      [trBuild0, trBuild1] "build-0" (by rfl) (by rfl) (by decide) (by rfl)).1

end KonfluxUI
